import Mathlib

/-!
# Verification of the ai-news consolidation pipeline

Shallow embedding of the decision logic of the repository:

* `src/deduplicator.py` — title normalization, difflib `SequenceMatcher`
  similarity, single-link-to-seed grouping, representative selection;
* `src/categorizer.py` / `src/policy_categorizer.py` — keyword/priority
  categorizers (regex patterns embedded as an explicit AST);
* `src/news_fetcher.py` / `src/youtube_fetcher.py` — trending scores;
* `src/relevance_filter.py` — LLM relevance filter with safe degradation.

Modelling conventions: Python floats are modelled as `ℚ` (all constants in
the source are decimally exact and only compared/combined by `+ - * / max ≥`,
so rational arithmetic is faithful on the inputs used here); Python strings
are ASCII-modelled (`str.lower`/`str.upper`/`\w`/`\s` restricted to ASCII);
timestamps are rational epoch seconds; a Python dict entry that may be
absent is an `Option`.  Dictionaries in the source are iterated in insertion
order, which we keep as association-list order.
-/

/-! ## Python string primitives (ASCII model) -/

/-- ASCII model of `str.lower` applied character-wise. -/
def pyLowerChar (c : Char) : Char :=
  if 'A' ≤ c ∧ c ≤ 'Z' then Char.ofNat (c.toNat + 32) else c

/-- ASCII model of `str.upper` applied character-wise. -/
def pyUpperChar (c : Char) : Char :=
  if 'a' ≤ c ∧ c ≤ 'z' then Char.ofNat (c.toNat - 32) else c

/-- ASCII model of `str.lower`. -/
def pyLower (s : String) : String := String.mk (s.toList.map pyLowerChar)

/-- ASCII model of `str.upper`. -/
def pyUpper (s : String) : String := String.mk (s.toList.map pyUpperChar)

/-- ASCII model of Python whitespace (the regex class `\s`). -/
def pyIsSpace (c : Char) : Bool :=
  c = ' ' ∨ c = '\t' ∨ c = '\n' ∨ c = Char.ofNat 11 ∨ c = Char.ofNat 12 ∨ c = '\r'

/-- ASCII model of the regex class `\w` (word characters). -/
def pyIsWordChar (c : Char) : Bool := c.isAlphanum || c = '_'

/-- ASCII model of `str.strip()` on a character list. -/
def pyStripList (l : List Char) : List Char :=
  ((l.dropWhile pyIsSpace).reverse.dropWhile pyIsSpace).reverse

/-- Helper for `str.split()` with no arguments: split on whitespace runs,
producing no empty words.  `acc` holds the current word reversed. -/
def pySplitWsAux : List Char → List Char → List (List Char)
  | [], acc => if acc = [] then [] else [acc.reverse]
  | c :: cs, acc =>
    if pyIsSpace c then
      if acc = [] then pySplitWsAux cs [] else acc.reverse :: pySplitWsAux cs []
    else pySplitWsAux cs (c :: acc)

/-- Model of `str.split()` (no separator). -/
def pySplitWs (l : List Char) : List (List Char) := pySplitWsAux l []

/-- Helper for `re.sub(r'\s+', ' ', s)`: collapse whitespace runs to one
space; the flag records whether the previous character was whitespace. -/
def collapseWsAux : Bool → List Char → List Char
  | _, [] => []
  | prevSpace, c :: cs =>
    if pyIsSpace c then
      if prevSpace then collapseWsAux true cs else ' ' :: collapseWsAux true cs
    else c :: collapseWsAux false cs

/-- Model of `re.sub(r'\s+', ' ', s)`. -/
def collapseWs (l : List Char) : List Char := collapseWsAux false l

/-! ## `deduplicator.normalize_title` -/

/-- The filler-word set of `normalize_title` (`deduplicator.py` lines 39-45). -/
def filler_words : List String :=
  ["the", "a", "an", "is", "are", "was", "were", "be", "been",
   "to", "of", "and", "or", "for", "in", "on", "at", "by",
   "with", "about", "how", "what", "why", "when", "where",
   "this", "that", "these", "those", "it", "its",
   "new", "just", "now", "here", "heres"]

/-- `deduplicator.normalize_title`: lowercase, map punctuation
(`[^\w\s]`) to spaces, drop filler words, rejoin with single spaces,
collapse whitespace and strip. -/
def normalize_title (title : String) : String :=
  if title = "" then ""
  else
    let lowered := title.toList.map pyLowerChar
    let depunct := lowered.map (fun c => if pyIsWordChar c || pyIsSpace c then c else ' ')
    let words := pySplitWs depunct
    let kept := words.filter (fun w => ¬ filler_words.contains (String.mk w))
    let joined := List.intercalate [' '] kept
    String.mk (pyStripList (collapseWs joined))

/-! ## difflib `SequenceMatcher` (as used: `SequenceMatcher(None, a, b).ratio()`)

Faithful port of CPython's difflib for the `isjunk=None` case used by
`similarity_score`: `b2j` maps a character to its (ascending) positions
in `b`, with "popular" characters removed by the autojunk heuristic when
`len(b) ≥ 200`; `find_longest_match` runs the `j2len` dynamic program and
then the non-junk extension loops (the junk-set is empty since
`isjunk=None`, so the junk extension loops are no-ops); matching blocks
are collected from a LIFO queue of subranges. -/

/-- Autojunk popularity test: with `len(b) ≥ 200`, characters occurring
more than `len(b) // 100 + 1` times are dropped from `b2j`. -/
def smPopular (b : List Char) (c : Char) : Bool :=
  200 ≤ b.length ∧ b.length / 100 + 1 < b.count c

/-- `b2j`: ascending positions of `c` in `b`, popular characters removed. -/
def smB2j (b : List Char) (c : Char) : List Nat :=
  if smPopular b c then []
  else b.enum.filterMap (fun p => if p.2 = c then some p.1 else none)

/-- Inner loop of `find_longest_match` over the position list `b2j[a[i]]`:
`continue` on `j < blo`, `break` on `j ≥ bhi` (the list is ascending),
otherwise `k = j2len.get(j-1, 0) + 1` (the key `-1` is never present, hence
the `j = 0` guard under `Nat` subtraction), record `k` in `newj2len` and
update the best block.  State: (`newj2len`, (besti, bestj, bestsize)). -/
def smInner (j2len : Nat → Nat) (i blo bhi : Nat) :
    List Nat → (Nat → Nat) → Nat × Nat × Nat → (Nat → Nat) × (Nat × Nat × Nat)
  | [], newj2len, best => (newj2len, best)
  | j :: js, newj2len, best =>
    if j < blo then smInner j2len i blo bhi js newj2len best
    else if bhi ≤ j then (newj2len, best)
    else
      let k := (if j = 0 then 0 else j2len (j - 1)) + 1
      let newj2len' := fun m => if m = j then k else newj2len m
      let best' := if best.2.2 < k then (i + 1 - k, j + 1 - k, k) else best
      smInner j2len i blo bhi js newj2len' best'

/-- Outer loop of `find_longest_match` over `i ∈ [alo, ahi)`. -/
def smOuter (a : List Char) (b2j : Char → List Nat) (blo bhi : Nat) :
    List Nat → (Nat → Nat) → Nat × Nat × Nat → Nat × Nat × Nat
  | [], _, best => best
  | i :: is, j2len, best =>
    let st := smInner j2len i blo bhi (b2j (a.getD i default)) (fun _ => 0) best
    smOuter a b2j blo bhi is st.1 st.2

/-- Leftward extension loop of `find_longest_match` (junk set empty).
Each iteration decrements `besti`, so fuel `besti` covers the loop: when
fuel runs out `besti = 0` and the `alo < besti` guard is false anyway. -/
def smExtendLeft (a b : List Char) (alo blo : Nat) :
    Nat → Nat → Nat → Nat → Nat × Nat × Nat
  | 0, besti, bestj, bestsize => (besti, bestj, bestsize)
  | fuel + 1, besti, bestj, bestsize =>
    if alo < besti ∧ blo < bestj ∧
        a.getD (besti - 1) default = b.getD (bestj - 1) default then
      smExtendLeft a b alo blo fuel (besti - 1) (bestj - 1) (bestsize + 1)
    else (besti, bestj, bestsize)

/-- Rightward extension loop of `find_longest_match` (junk set empty).
Each iteration increments `bestsize` and requires `besti + bestsize < ahi`,
so fuel `ahi` covers the loop. -/
def smExtendRight (a b : List Char) (ahi bhi besti bestj : Nat) :
    Nat → Nat → Nat
  | 0, bestsize => bestsize
  | fuel + 1, bestsize =>
    if besti + bestsize < ahi ∧ bestj + bestsize < bhi ∧
        a.getD (besti + bestsize) default = b.getD (bestj + bestsize) default then
      smExtendRight a b ahi bhi besti bestj fuel (bestsize + 1)
    else bestsize

/-- `SequenceMatcher.find_longest_match(alo, ahi, blo, bhi)`. -/
def find_longest_match (a b : List Char) (b2j : Char → List Nat)
    (alo ahi blo bhi : Nat) : Nat × Nat × Nat :=
  let best := smOuter a b2j blo bhi (List.range' alo (ahi - alo)) (fun _ => 0) (alo, blo, 0)
  let left := smExtendLeft a b alo blo best.1 best.1 best.2.1 best.2.2
  let size := smExtendRight a b ahi bhi left.1 left.2.1 ahi left.2.2
  (left.1, left.2.1, size)

/-- Queue loop of `get_matching_blocks`.  Python pops from the end of the
queue and pushes the two child subranges (left then right), so the queue is
a stack with the right child on top; we model the stack head-first.  The
fuel dominates the number of queue elements ever processed (at most
`1 + 2*min |a| |b|`, see `get_matching_blocks`). -/
def smQueueLoop (a b : List Char) (b2j : Char → List Nat) :
    Nat → List (Nat × Nat × Nat × Nat) → List (Nat × Nat × Nat) → List (Nat × Nat × Nat)
  | 0, _, acc => acc
  | _ + 1, [], acc => acc
  | fuel + 1, (alo, ahi, blo, bhi) :: rest, acc =>
    let m := find_longest_match a b b2j alo ahi blo bhi
    let i := m.1
    let j := m.2.1
    let k := m.2.2
    let acc' := if k ≠ 0 then acc ++ [(i, j, k)] else acc
    let pushLeft : List (Nat × Nat × Nat × Nat) :=
      if k ≠ 0 ∧ alo < i ∧ blo < j then [(alo, i, blo, j)] else []
    let pushRight : List (Nat × Nat × Nat × Nat) :=
      if k ≠ 0 ∧ i + k < ahi ∧ j + k < bhi then [(i + k, ahi, j + k, bhi)] else []
    smQueueLoop a b b2j fuel (pushRight ++ pushLeft ++ rest) acc'

/-- Lexicographic comparison on block triples, for `matching_blocks.sort()`. -/
def tripleLe (x y : Nat × Nat × Nat) : Bool :=
  x.1 < y.1 ∨ (x.1 = y.1 ∧ (x.2.1 < y.2.1 ∨ (x.2.1 = y.2.1 ∧ x.2.2 ≤ y.2.2)))

/-- Insertion step of a stable sort of block triples. -/
def tripleInsert (x : Nat × Nat × Nat) : List (Nat × Nat × Nat) → List (Nat × Nat × Nat)
  | [] => [x]
  | y :: ys => if tripleLe x y then x :: y :: ys else y :: tripleInsert x ys

/-- `matching_blocks.sort()` (lexicographic sort of triples). -/
def tripleSort : List (Nat × Nat × Nat) → List (Nat × Nat × Nat)
  | [] => []
  | x :: xs => tripleInsert x (tripleSort xs)

/-- Adjacent-block merging loop at the end of `get_matching_blocks`. -/
def smMergeAdjacent : Nat × Nat × Nat → List (Nat × Nat × Nat) → List (Nat × Nat × Nat)
  | (i1, j1, k1), [] => if k1 ≠ 0 then [(i1, j1, k1)] else []
  | (i1, j1, k1), (i2, j2, k2) :: rest =>
    if i1 + k1 = i2 ∧ j1 + k1 = j2 then smMergeAdjacent (i1, j1, k1 + k2) rest
    else (if k1 ≠ 0 then [(i1, j1, k1)] else []) ++ smMergeAdjacent (i2, j2, k2) rest

/-- `SequenceMatcher.get_matching_blocks()`: queue-driven recursive longest
matches, sorted, adjacent blocks merged, with the terminating zero-length
block `(len(a), len(b), 0)` appended.  Each processed subrange either yields
no match (no children pushed) or a match of size ≥ 1 (at most two children),
and total match size is bounded by `min |a| |b|`, so `|a| + |b| + 1` fuel
covers every queue element. -/
def get_matching_blocks (a b : List Char) : List (Nat × Nat × Nat) :=
  let blocks := smQueueLoop a b (smB2j b) (a.length + b.length + 1)
    [(0, a.length, 0, b.length)] []
  smMergeAdjacent (0, 0, 0) (tripleSort blocks) ++ [(a.length, b.length, 0)]

/-- Total size `M` of the matching blocks. -/
def smMatches (a b : List Char) : Nat :=
  ((get_matching_blocks a b).map (fun t => t.2.2)).sum

/-- `SequenceMatcher.ratio()` = `2*M / (len(a)+len(b))` where `M` is the
total size of the matching blocks (and 1 when both strings are empty).
Stated with `mkRat` so that the value is kernel-computable;
`smRatio_eq_div` below rewrites it as the division of the source. -/
def smRatio (a b : List Char) : ℚ :=
  if a.length + b.length = 0 then 1
  else mkRat (2 * (smMatches a b : ℤ)) (a.length + b.length)

/-- `smRatio` is the `2*M / (len(a)+len(b))` of the source formula. -/
theorem smRatio_eq_div (a b : List Char) (h : a.length + b.length ≠ 0) :
    smRatio a b = 2 * (smMatches a b : ℚ) / ((a.length : ℚ) + (b.length : ℚ)) := by
  simp only [smRatio, if_neg h, Rat.mkRat_eq_div]
  push_cast
  ring

/-! ## `deduplicator.similarity_score` / `is_duplicate` -/

/-- `deduplicator.similarity_score`: ratio of the normalized titles,
0 when either normalization is empty. -/
def similarity_score (title1 title2 : String) : ℚ :=
  let norm1 := normalize_title title1
  let norm2 := normalize_title title2
  if norm1 = "" ∨ norm2 = "" then 0
  else smRatio norm1.toList norm2.toList

/-- `deduplicator.is_duplicate`: similarity at or above the threshold. -/
def is_duplicate (title1 title2 : String) (threshold : ℚ) : Bool :=
  threshold ≤ similarity_score title1 title2

-- sanity checks against the source behaviour
example : normalize_title "The new AB cd!" = "ab cd" := by decide
example : similarity_score "ab" "bc" = mkRat 1 2 := by decide
example : similarity_score "ab" "ab" = 1 := by decide
example : similarity_score "ab" "cd" = 0 := by decide

/-! ## The Item record

Value model of the Python item dict as used by `deduplicate_items`
(`title` required; `score`/`source`/`also_on` read with defaults).
The field `url` stands for the remaining identity payload of the dict. -/

structure Item where
  title : String
  score : Option ℚ
  source : String
  url : String
  also_on : Option (List String)
deriving DecidableEq, Repr, Inhabited

/-- `x.get(score_key, 0)` for the default `score_key = "score"`. -/
def itemKey (p : Nat × Item) : ℚ := p.2.score.getD 0

/-! ## Stable descending insertion sort

Model of Python `list.sort(key=..., reverse=True)`: `list.sort` is
documented stable, and `reverse=True` keeps equal-key elements in their
original order.  `insertDescBy` places `x` before the first element with a
strictly smaller key, after all earlier elements with a key ≥ its own. -/

section StableSort

variable {α : Type*} {β : Type*} [LinearOrder β]

/-- Insert into a descending-sorted list, after equal keys (stability). -/
def insertDescBy (key : α → β) (x : α) : List α → List α
  | [] => [x]
  | y :: ys => if key y ≤ key x then x :: y :: ys else y :: insertDescBy key x ys

/-- Stable sort, descending by key. -/
def sortDescBy (key : α → β) : List α → List α
  | [] => []
  | x :: xs => insertDescBy key x (sortDescBy key xs)

theorem insertDescBy_perm (key : α → β) (x : α) (l : List α) :
    List.Perm (insertDescBy key x l) (x :: l) := by
  induction l with
  | nil => exact List.Perm.refl _
  | cons y ys ih =>
    by_cases h : key y ≤ key x
    · simp [insertDescBy, h]
    · simp only [insertDescBy, if_neg h]
      exact (ih.cons y).trans (List.Perm.swap x y ys)

theorem sortDescBy_perm (key : α → β) (l : List α) : List.Perm (sortDescBy key l) l := by
  induction l with
  | nil => exact List.Perm.refl _
  | cons x xs ih => exact (insertDescBy_perm key x _).trans (ih.cons x)

theorem sortDescBy_eq_nil_iff (key : α → β) (l : List α) :
    sortDescBy key l = [] ↔ l = [] := by
  constructor
  · intro h
    have := (sortDescBy_perm key l).symm
    rw [h] at this
    exact this.eq_nil
  · intro h; subst h; rfl

theorem sortDescBy_headI_mem (key : α → β) (l : List α) [Inhabited α] (h : l ≠ []) :
    (sortDescBy key l).headI ∈ l := by
  have hs : sortDescBy key l ≠ [] := fun hn => h ((sortDescBy_eq_nil_iff key l).mp hn)
  have : (sortDescBy key l).headI ∈ sortDescBy key l := by
    cases hl : sortDescBy key l with
    | nil => exact absurd hl hs
    | cons a as => simp
  exact (sortDescBy_perm key l).mem_iff.mp this

/-- The head of the stable descending sort has a maximal key. -/
theorem sortDescBy_headI_key_max (key : α → β) [Inhabited α] :
    ∀ (l : List α), ∀ x ∈ l, key x ≤ key (sortDescBy key l).headI := by
  intro l
  induction l with
  | nil => intro x hx; cases hx
  | cons a xs ih =>
    intro x hx
    cases hs : sortDescBy key xs with
    | nil =>
      have : xs = [] := (sortDescBy_eq_nil_iff key xs).mp hs
      subst this
      rcases List.mem_singleton.mp hx with rfl
      simp [sortDescBy, insertDescBy]
    | cons y ys =>
      by_cases h : key y ≤ key a
      · have hh : (sortDescBy key (a :: xs)).headI = a := by
          simp [sortDescBy, hs, insertDescBy, h]
        rw [hh]
        rcases List.mem_cons.mp hx with rfl | hx
        · exact le_refl _
        · have := ih x hx
          rw [hs] at this
          simpa using le_trans this h
      · have hh : (sortDescBy key (a :: xs)).headI = y := by
          simp [sortDescBy, hs, insertDescBy, h]
        rw [hh]
        rcases List.mem_cons.mp hx with rfl | hx
        · exact le_of_not_le h
        · have := ih x hx
          rw [hs] at this
          simpa using this

/-- Stability at the head: among maximal-key elements the head of the sort
is the one earliest in the input (indices strictly increasing along `l`). -/
theorem sortDescBy_headI_earliest (key : α → β) (idx : α → ℕ) [Inhabited α] :
    ∀ (l : List α), l.Pairwise (fun a b => idx a < idx b) →
      ∀ x ∈ l, key x = key (sortDescBy key l).headI →
        idx (sortDescBy key l).headI ≤ idx x := by
  intro l
  induction l with
  | nil => intro _ x hx; cases hx
  | cons a xs ih =>
    intro hp x hx hkey
    have hpxs : xs.Pairwise (fun a b => idx a < idx b) := (List.pairwise_cons.mp hp).2
    have hidx : ∀ y ∈ xs, idx a < idx y := (List.pairwise_cons.mp hp).1
    cases hs : sortDescBy key xs with
    | nil =>
      have : xs = [] := (sortDescBy_eq_nil_iff key xs).mp hs
      subst this
      rcases List.mem_singleton.mp hx with rfl
      simp [sortDescBy, insertDescBy]
    | cons y ys =>
      by_cases h : key y ≤ key a
      · have hh : (sortDescBy key (a :: xs)).headI = a := by
          simp [sortDescBy, hs, insertDescBy, h]
        rw [hh]
        rcases List.mem_cons.mp hx with rfl | hx
        · exact le_refl _
        · exact le_of_lt (hidx x hx)
      · have hh : (sortDescBy key (a :: xs)).headI = y := by
          simp [sortDescBy, hs, insertDescBy, h]
        rw [hh] at hkey ⊢
        rcases List.mem_cons.mp hx with rfl | hx
        · exact absurd (hkey ▸ le_refl _) h
        · have := ih hpxs x hx
          rw [hs] at this
          exact this hkey

end StableSort

/-! ## Single-link-to-seed grouping (`deduplicate_items`, grouping phase)

The Python loops (`deduplicator.py` lines 129-150): the outer loop takes the
first not-yet-used item as the seed of a new group; the inner loop scans the
remaining not-yet-used items and moves every one whose title is a duplicate
of the *seed's* into the group.  Because matched items are consumed, the
not-yet-used items after a seed's pass are exactly those failing the seed
test, in input order — which is the recursion below.  A fuel parameter
(an upper bound on the number of seeds, at most `l.length`) makes the
function structurally recursive; `groupStepFuel_congr` shows any
sufficient fuel computes the same value. -/

section Grouping

variable {α : Type*}

/-- One grouping pass per unit of fuel: seed, its matches, recurse on the
non-matches. -/
def groupStepFuel (p : α → α → Bool) : Nat → List α → List (List α)
  | _, [] => []
  | 0, _ :: _ => []
  | fuel + 1, x :: rest =>
    (x :: rest.filter (fun y => p x y)) :: groupStepFuel p fuel (rest.filter (fun y => !(p x y)))

theorem groupStepFuel_congr (p : α → α → Bool) :
    ∀ fuel (l : List α), l.length ≤ fuel →
      groupStepFuel p fuel l = groupStepFuel p l.length l := by
  intro fuel
  induction fuel using Nat.strong_induction_on with
  | _ fuel ih =>
    intro l hl
    match fuel, l with
    | 0, [] => rfl
    | _ + 1, [] => rfl
    | 0, x :: rest => simp at hl
    | f + 1, x :: rest =>
      have hr : rest.length ≤ f := Nat.le_of_succ_le_succ hl
      have hfil : (rest.filter (fun y => !(p x y))).length ≤ rest.length :=
        List.length_filter_le _ _
      simp only [groupStepFuel, List.length_cons]
      congr 1
      rw [ih f (Nat.lt_succ_self f) _ (le_trans hfil hr),
        ih rest.length (Nat.lt_succ_of_le hr) _ hfil]

/-- The grouping phase of `deduplicate_items`. -/
def groupStep (p : α → α → Bool) (l : List α) : List (List α) :=
  groupStepFuel p l.length l

theorem groupStep_nil (p : α → α → Bool) : groupStep p ([] : List α) = [] := rfl

theorem groupStep_cons (p : α → α → Bool) (x : α) (rest : List α) :
    groupStep p (x :: rest) =
      (x :: rest.filter (fun y => p x y)) ::
        groupStep p (rest.filter (fun y => !(p x y))) := by
  show groupStepFuel p (rest.length + 1) (x :: rest) = _
  simp only [groupStepFuel]
  congr 1
  exact groupStepFuel_congr p rest.length _ (List.length_filter_le _ _)

/-- Induction along the recursion structure of `groupStep`. -/
theorem groupStep_induction (p : α → α → Bool) (M : List α → Prop) (h0 : M [])
    (h1 : ∀ x rest, M (rest.filter (fun y => !(p x y))) → M (x :: rest)) :
    ∀ l, M l := by
  have key : ∀ n (l : List α), l.length ≤ n → M l := by
    intro n
    induction n with
    | zero =>
      intro l hl
      have hz : l = [] := List.length_eq_zero.mp (Nat.le_zero.mp hl)
      exact hz ▸ h0
    | succ n ih =>
      intro l hl
      cases l with
      | nil => exact h0
      | cons x rest =>
        exact h1 x rest
          (ih _ (le_trans (List.length_filter_le _ _) (Nat.le_of_succ_le_succ hl)))
  exact fun l => key l.length l (le_refl _)

/-- The groups partition the input: their concatenation is a permutation of
the input list. -/
theorem groupStep_join_perm (p : α → α → Bool) :
    ∀ l : List α, List.Perm (groupStep p l).join l := by
  apply groupStep_induction p (fun l => List.Perm (groupStep p l).join l)
  · simp [groupStep_nil]
  · intro x rest ih
    rw [groupStep_cons]
    simp only [List.join_cons]
    have h3 : List.Perm ((x :: rest.filter (fun y => p x y)) ++
        (groupStep p (rest.filter (fun y => !(p x y)))).join)
        ((x :: rest.filter (fun y => p x y)) ++ rest.filter (fun y => !(p x y))) :=
      ih.append_left _
    refine h3.trans ?_
    have h4 := (List.filter_append_perm (fun y => p x y) rest).cons x
    exact h4

theorem groupStep_ne_nil (p : α → α → Bool) :
    ∀ l : List α, ∀ g ∈ groupStep p l, g ≠ [] := by
  apply groupStep_induction p (fun l => ∀ g ∈ groupStep p l, g ≠ [])
  · simp [groupStep_nil]
  · intro x rest ih g hg
    rw [groupStep_cons] at hg
    rcases List.mem_cons.mp hg with rfl | hg
    · simp
    · exact ih g hg

/-- Every group member comes from the input list. -/
theorem groupStep_sub (p : α → α → Bool) (l : List α) :
    ∀ g ∈ groupStep p l, ∀ y ∈ g, y ∈ l := by
  intro g hg y hy
  exact (groupStep_join_perm p l).mem_iff.mp (List.mem_join.mpr ⟨g, hg, hy⟩)

/-- Every non-seed member of a group matches the group's seed. -/
theorem groupStep_tail_rel (p : α → α → Bool) [Inhabited α] :
    ∀ l : List α, ∀ g ∈ groupStep p l, ∀ y ∈ g.tail, p g.headI y = true := by
  apply groupStep_induction p
    (fun l => ∀ g ∈ groupStep p l, ∀ y ∈ g.tail, p g.headI y = true)
  · simp [groupStep_nil]
  · intro x rest ih g hg y hy
    rw [groupStep_cons] at hg
    rcases List.mem_cons.mp hg with rfl | hg
    · simp only [List.headI_cons, List.tail_cons] at hy ⊢
      exact (List.mem_filter.mp hy).2
    · exact ih g hg y hy

/-- Seeds of distinct groups never match (earlier seed vs. later seed). -/
theorem groupStep_heads_pairwise (p : α → α → Bool) [Inhabited α] :
    ∀ l : List α, (groupStep p l).Pairwise (fun g h => p g.headI h.headI = false) := by
  apply groupStep_induction p
    (fun l => (groupStep p l).Pairwise (fun g h => p g.headI h.headI = false))
  · simp [groupStep_nil]
  · intro x rest ih
    rw [groupStep_cons]
    refine List.pairwise_cons.mpr ⟨?_, ih⟩
    intro g hg
    have hne : g ≠ [] := groupStep_ne_nil p _ g hg
    have hmem : g.headI ∈ rest.filter (fun y => !(p x y)) := by
      refine groupStep_sub p _ g hg g.headI ?_
      cases g with
      | nil => exact absurd rfl hne
      | cons a as => simp
    have := (List.mem_filter.mp hmem).2
    simpa using this

/-- `groupStep` preserves any pairwise relation of the input list inside
each group (used with "indices strictly increase"). -/
theorem groupStep_pairwise (p : α → α → Bool) (R : α → α → Prop) :
    ∀ l : List α, l.Pairwise R → ∀ g ∈ groupStep p l, g.Pairwise R := by
  apply groupStep_induction p
    (fun l => l.Pairwise R → ∀ g ∈ groupStep p l, g.Pairwise R)
  · simp [groupStep_nil]
  · intro x rest ih hp g hg
    rw [groupStep_cons] at hg
    have hx : ∀ y ∈ rest, R x y := (List.pairwise_cons.mp hp).1
    have hrest : rest.Pairwise R := (List.pairwise_cons.mp hp).2
    rcases List.mem_cons.mp hg with rfl | hg
    · refine List.pairwise_cons.mpr ⟨?_, ?_⟩
      · intro y hy
        exact hx y (List.mem_of_mem_filter hy)
      · exact hrest.sublist (List.filter_sublist rest)
    · exact ih (hrest.sublist (List.filter_sublist rest)) g hg

/-- The seeds, in group order, form a sublist of the input: groups are
discovered in order of first appearance of their seeds. -/
theorem groupStep_heads_sublist (p : α → α → Bool) [Inhabited α] :
    ∀ l : List α, List.Sublist ((groupStep p l).map (fun g => g.headI)) l := by
  apply groupStep_induction p
    (fun l => List.Sublist ((groupStep p l).map (fun g => g.headI)) l)
  · simp [groupStep_nil]
  · intro x rest ih
    rw [groupStep_cons]
    simp only [List.map_cons, List.headI_cons]
    exact (ih.trans (List.filter_sublist rest)).cons₂ x

theorem groupStep_length_le (p : α → α → Bool) :
    ∀ l : List α, (groupStep p l).length ≤ l.length := by
  apply groupStep_induction p (fun l => (groupStep p l).length ≤ l.length)
  · simp [groupStep_nil]
  · intro x rest ih
    rw [groupStep_cons]
    simpa using Nat.succ_le_succ (le_trans ih (List.length_filter_le _ _))

theorem groupStep_eq_nil_iff (p : α → α → Bool) (l : List α) :
    groupStep p l = [] ↔ l = [] := by
  constructor
  · intro h
    have := groupStep_join_perm p l
    rw [h] at this
    exact this.symm.eq_nil
  · intro h; subst h; rfl

/-- When no two input elements match, every group is a singleton and the
grouping returns the input unchanged (as singleton groups). -/
theorem groupStep_all_singleton (p : α → α → Bool) :
    ∀ l : List α, l.Pairwise (fun a b => p a b = false) →
      groupStep p l = l.map (fun x => [x]) := by
  apply groupStep_induction p
    (fun l => l.Pairwise (fun a b => p a b = false) → groupStep p l = l.map (fun x => [x]))
  · simp [groupStep_nil]
  · intro x rest ih hp
    rw [groupStep_cons]
    have hx : ∀ y ∈ rest, p x y = false := (List.pairwise_cons.mp hp).1
    have h1 : rest.filter (fun y => p x y) = [] := by
      rw [List.filter_eq_nil]
      intro a ha
      simp [hx a ha]
    have h2 : rest.filter (fun y => !(p x y)) = rest := by
      rw [List.filter_eq_self]
      intro a ha
      simp [hx a ha]
    have ihr : groupStep p rest = rest.map (fun x => [x]) := by
      rw [← h2]
      exact ih (((List.pairwise_cons.mp hp).2).sublist (List.filter_sublist rest))
    rw [h1, h2, ihr]
    simp

end Grouping

/-! ## `deduplicate_items` -/

/-- The grouping predicate of the seed loop: `is_duplicate` on the titles
(`deduplicator.py` line 146), over enumerated items. -/
def dupPred (threshold : ℚ) (a b : ℕ × Item) : Bool :=
  is_duplicate a.2.title b.2.title threshold

/-- The groups formed by `deduplicate_items` (lines 129-150), with each
item paired with its input position. -/
def dedupGroups (items : List Item) (threshold : ℚ) : List (List (ℕ × Item)) :=
  groupStep (dupPred threshold) items.enum

/-- Representative selection for one group (lines 154-167): a singleton
group yields its item unchanged; otherwise sort descending by score
(stable), take the head, collect the non-empty `source` values of the
sorted group, and when more than one exists overwrite the representative's
`also_on` with those values minus the representative's own source. -/
def emitGroup (g : List (ℕ × Item)) : ℕ × Item :=
  match g with
  | [p] => p
  | _ =>
    let sorted := sortDescBy itemKey g
    let best := sorted.headI
    let sources := sorted.filterMap
      (fun q => if q.2.source ≠ "" then some q.2.source else none)
    if 1 < sources.length then
      (best.1, { best.2 with also_on := some (sources.filter (fun s => s ≠ best.2.source)) })
    else best

/-- `deduplicator.deduplicate_items`: one representative per group, in
group-discovery order.  (The `if not items: return []` fast path of the
source coincides with the general path on the empty list.) -/
def deduplicate_items (items : List Item) (threshold : ℚ) : List Item :=
  ((dedupGroups items threshold).map emitGroup).map Prod.snd

/-- The input list as it stands when `deduplicate_items` returns: the
`best["also_on"] = ...` assignment mutates the input dict in place, so the
entry at a representative's position carries the updated value.  Membership
of the output in "the input list" (Python object identity) is membership in
this list. -/
def itemsAfterDedup (items : List Item) (threshold : ℚ) : List Item :=
  let em := (dedupGroups items threshold).map emitGroup
  items.enum.map (fun q =>
    match em.find? (fun r => r.1 == q.1) with
    | some r => r.2
    | none => q.2)

-- concrete items for sanity checks and counterexamples
def iAB : Item := ⟨"ab", some 1, "A", "", none⟩
def iBC : Item := ⟨"bc", some 5, "B", "", none⟩
def iCD : Item := ⟨"cd", some 3, "C", "", none⟩

example : dedupGroups [iAB, iBC, iCD] (mkRat 1 2) = [[(0, iAB), (1, iBC)], [(2, iCD)]] := by decide
example : deduplicate_items [iAB, iBC, iCD] (mkRat 1 2) =
    [⟨"bc", some 5, "B", "", some ["A"]⟩, iCD] := by decide
example : deduplicate_items (deduplicate_items [iAB, iBC, iCD] (mkRat 1 2)) (mkRat 1 2) =
    [⟨"bc", some 5, "B", "", some ["C"]⟩] := by decide
example : itemsAfterDedup [iAB, iBC, iCD] (mkRat 1 2) =
    [iAB, ⟨"bc", some 5, "B", "", some ["A"]⟩, iCD] := by decide

/-! ## Helper lemmas on `emitGroup` and enumerated inputs -/

theorem enum_pairwise_fst_lt {α : Type*} (l : List α) :
    l.enum.Pairwise (fun a b => a.1 < b.1) := by
  have h1 : List.Pairwise (· < ·) (List.range l.length) := List.pairwise_lt_range _
  rw [← List.enum_map_fst l] at h1
  exact List.pairwise_map.mp h1

theorem emitGroup_single (p : ℕ × Item) : emitGroup [p] = p := rfl

/-- The representative emitted for a group is one of its members, either
unchanged or with only its `also_on` field overwritten. -/
theorem emitGroup_spec (g : List (ℕ × Item)) (hne : g ≠ []) :
    ∃ q ∈ g, emitGroup g = q ∨
      emitGroup g = (q.1, { q.2 with also_on := (emitGroup g).2.also_on }) := by
  cases g with
  | nil => exact absurd rfl hne
  | cons a tail =>
    cases tail with
    | nil => exact ⟨a, by simp, Or.inl rfl⟩
    | cons b bs =>
      have hmem : (sortDescBy itemKey (a :: b :: bs)).headI ∈ a :: b :: bs :=
        sortDescBy_headI_mem itemKey _ (by simp)
      refine ⟨(sortDescBy itemKey (a :: b :: bs)).headI, hmem, ?_⟩
      by_cases h : 1 < ((sortDescBy itemKey (a :: b :: bs)).filterMap
          (fun q => if q.2.source ≠ "" then some q.2.source else none)).length
      · right
        simp only [emitGroup, if_pos h]
      · left
        simp only [emitGroup, if_neg h]

/-- Field preservation: the emitted representative keeps the member's
position, title, score, source and url. -/
theorem emitGroup_fields (g : List (ℕ × Item)) (hne : g ≠ []) :
    ∃ q ∈ g, (emitGroup g).1 = q.1 ∧ (emitGroup g).2.title = q.2.title ∧
      (emitGroup g).2.score = q.2.score ∧ (emitGroup g).2.source = q.2.source ∧
      (emitGroup g).2.url = q.2.url := by
  obtain ⟨q, hq, hcase⟩ := emitGroup_spec g hne
  rcases hcase with h | h
  · exact ⟨q, hq, by rw [h], by rw [h], by rw [h], by rw [h], by rw [h]⟩
  · exact ⟨q, hq, by rw [h], by rw [h], by rw [h], by rw [h], by rw [h]⟩

/-! ## C1 -/

/-- **C1**: the groups' concatenation is a permutation of the enumerated
input (every input item, counted with its position, lies in exactly one
group); the output carries exactly one representative per group; groups
are ordered by the input position of their seeds (group-discovery order =
order of first appearance of the seeds); and each representative is a
member of its group (same position, title, score, source). -/
theorem deduplicate_items_partition (items : List Item) (threshold : ℚ) :
    List.Perm (dedupGroups items threshold).join items.enum ∧
    (deduplicate_items items threshold).length = (dedupGroups items threshold).length ∧
    (dedupGroups items threshold).Pairwise (fun g h => g.headI.1 < h.headI.1) ∧
    (∀ g ∈ dedupGroups items threshold,
      ∃ q ∈ g, (emitGroup g).1 = q.1 ∧ (emitGroup g).2.title = q.2.title ∧
        (emitGroup g).2.score = q.2.score ∧ (emitGroup g).2.source = q.2.source) := by
  refine ⟨groupStep_join_perm _ _, by simp [deduplicate_items], ?_, ?_⟩
  · have hsub := groupStep_heads_sublist (dupPred threshold) items.enum
    have hp : (items.enum).Pairwise (fun a b => a.1 < b.1) := enum_pairwise_fst_lt items
    have h2 := List.Pairwise.sublist hsub hp
    exact (List.pairwise_map (f := fun g : List (ℕ × Item) => g.headI)).mp h2
  · intro g hg
    obtain ⟨q, hq, h1, h2, h3, h4, _⟩ :=
      emitGroup_fields g (groupStep_ne_nil _ _ g hg)
    exact ⟨q, hq, h1, h2, h3, h4⟩

/-- Witness for C1 at a concrete two-item input whose titles are duplicates
at threshold 1/2. -/
theorem deduplicate_items_partition_witness :
    List.Perm (dedupGroups [iAB, iBC] (mkRat 1 2)).join ([iAB, iBC] : List Item).enum ∧
    (∃ q ∈ [(0, iAB), (1, iBC)], (emitGroup [(0, iAB), (1, iBC)]).1 = q.1 ∧
      (emitGroup [(0, iAB), (1, iBC)]).2.title = q.2.title ∧
      (emitGroup [(0, iAB), (1, iBC)]).2.score = q.2.score ∧
      (emitGroup [(0, iAB), (1, iBC)]).2.source = q.2.source) :=
  ⟨(deduplicate_items_partition [iAB, iBC] (mkRat 1 2)).1,
   (deduplicate_items_partition [iAB, iBC] (mkRat 1 2)).2.2.2
     [(0, iAB), (1, iBC)] (by decide)⟩

/-! ## C4 -/

theorem emitGroup_multi_fst_score (a b : ℕ × Item) (bs : List (ℕ × Item)) :
    (emitGroup (a :: b :: bs)).1 = (sortDescBy itemKey (a :: b :: bs)).headI.1 ∧
    (emitGroup (a :: b :: bs)).2.score = (sortDescBy itemKey (a :: b :: bs)).headI.2.score := by
  simp only [emitGroup]
  split
  · exact ⟨rfl, rfl⟩
  · exact ⟨rfl, rfl⟩

/-- **C4**: in every group of size > 1 the chosen representative (the head
of the stable descending sort by `score`, missing scores read as 0) is a
group member whose score is maximal, and among equal maximal scores it is
the member earliest in original input order; the emitted item carries that
representative's position and score. -/
theorem dedup_representative_best (items : List Item) (threshold : ℚ)
    (g : List (ℕ × Item)) (hg : g ∈ dedupGroups items threshold) (hlen : 1 < g.length) :
    (sortDescBy itemKey g).headI ∈ g ∧
    (∀ q ∈ g, itemKey q ≤ itemKey (sortDescBy itemKey g).headI) ∧
    (∀ q ∈ g, itemKey q = itemKey (sortDescBy itemKey g).headI →
      (sortDescBy itemKey g).headI.1 ≤ q.1) ∧
    (emitGroup g).1 = (sortDescBy itemKey g).headI.1 ∧
    (emitGroup g).2.score = (sortDescBy itemKey g).headI.2.score := by
  have hne : g ≠ [] := by
    intro h
    rw [h] at hlen
    simp at hlen
  refine ⟨sortDescBy_headI_mem itemKey g hne, sortDescBy_headI_key_max itemKey g, ?_, ?_⟩
  · intro q hq hk
    have hp : g.Pairwise (fun a b => a.1 < b.1) :=
      groupStep_pairwise _ _ items.enum (enum_pairwise_fst_lt items) g hg
    exact sortDescBy_headI_earliest itemKey Prod.fst g hp q hq hk
  · cases g with
    | nil => simp at hlen
    | cons a tail =>
      cases tail with
      | nil => simp at hlen
      | cons b bs => exact emitGroup_multi_fst_score a b bs

/-- Witness for C4 on a concrete two-element group. -/
theorem dedup_representative_best_witness :
    (sortDescBy itemKey [(0, iAB), (1, iBC)]).headI ∈ ([(0, iAB), (1, iBC)] : List (ℕ × Item)) ∧
    (∀ q ∈ ([(0, iAB), (1, iBC)] : List (ℕ × Item)),
      itemKey q ≤ itemKey (sortDescBy itemKey [(0, iAB), (1, iBC)]).headI) :=
  ⟨(dedup_representative_best [iAB, iBC] (mkRat 1 2) [(0, iAB), (1, iBC)]
      (by decide) (by decide)).1,
   (dedup_representative_best [iAB, iBC] (mkRat 1 2) [(0, iAB), (1, iBC)]
      (by decide) (by decide)).2.1⟩

/-! ## C2 -/

/-- Field projections of the representative emitted for a group of size
at least 2: the position, title, score and source are those of the head of
the stable descending sort. -/
theorem emitGroup_multi_fields (a b : ℕ × Item) (bs : List (ℕ × Item)) :
    (emitGroup (a :: b :: bs)).1 = (sortDescBy itemKey (a :: b :: bs)).headI.1 ∧
    (emitGroup (a :: b :: bs)).2.title = (sortDescBy itemKey (a :: b :: bs)).headI.2.title ∧
    (emitGroup (a :: b :: bs)).2.source = (sortDescBy itemKey (a :: b :: bs)).headI.2.source := by
  simp only [emitGroup]
  split
  · exact ⟨rfl, rfl, rfl⟩
  · exact ⟨rfl, rfl, rfl⟩

/-- Lift a pairwise relation on a list to its enumeration. -/
theorem enum_pairwise_snd {α : Type*} (R : α → α → Prop) (l : List α)
    (h : l.Pairwise R) : l.enum.Pairwise (fun a b => R a.2 b.2) := by
  have h2 : List.Pairwise R (l.enum.map Prod.snd) := by
    rw [List.enum_map_snd]
    exact h
  exact (List.pairwise_map (f := Prod.snd)).mp h2

/-- **C2 (counterexample)**: deduplication is not idempotent on its own
output.  With titles "ab"/"bc"/"cd" at threshold 1/2, "ab" seeds a group
absorbing "bc" (similarity 1/2) while "cd" stays separate (similarity to
"ab" is 0); "bc" wins its group on score, and a second run merges the
representative "bc" with "cd" (similarity 1/2), shrinking the list. -/
theorem dedup_not_idempotent_counterexample :
    deduplicate_items (deduplicate_items [iAB, iBC, iCD] (mkRat 1 2)) (mkRat 1 2) ≠
      deduplicate_items [iAB, iBC, iCD] (mkRat 1 2) := by decide

/-- The emitted representative keeps its group's seed title whenever the
sort by score puts the seed first. -/
theorem emitGroup_title_of_seed_head (g : List (ℕ × Item)) (hne : g ≠ [])
    (h : (sortDescBy itemKey g).headI = g.headI) :
    (emitGroup g).2.title = g.headI.2.title := by
  cases g with
  | nil => exact absurd rfl hne
  | cons a tail =>
    cases tail with
    | nil => rfl
    | cons b bs =>
      have := (emitGroup_multi_fields a b bs).2.1
      rw [this, h]

/-- **C2 (amended)**: re-running `deduplicate_items` on its own output is
the identity provided each group's representative is its seed (in
particular when every group is a singleton, or when seeds carry the top
score of their groups).  In general a representative other than the seed
may be a duplicate of another group's representative, and a second run
merges them (see the counterexample). -/
theorem dedup_idempotent_of_seed_representatives (items : List Item) (threshold : ℚ)
    (h : ∀ g ∈ dedupGroups items threshold, (sortDescBy itemKey g).headI = g.headI) :
    deduplicate_items (deduplicate_items items threshold) threshold =
      deduplicate_items items threshold := by
  have htitle : ∀ g ∈ dedupGroups items threshold,
      (emitGroup g).2.title = g.headI.2.title := fun g hg =>
    emitGroup_title_of_seed_head g (groupStep_ne_nil _ _ g hg) (h g hg)
  have hys : deduplicate_items items threshold =
      (dedupGroups items threshold).map (fun g => (emitGroup g).2) := by
    simp [deduplicate_items, List.map_map]
  have hpair : (deduplicate_items items threshold).Pairwise
      (fun x y : Item => is_duplicate x.title y.title threshold = false) := by
    have hheads := groupStep_heads_pairwise (dupPred threshold) items.enum
    have hgs : (dedupGroups items threshold).Pairwise
        (fun g g' => is_duplicate (emitGroup g).2.title (emitGroup g').2.title threshold
          = false) := by
      refine List.Pairwise.imp_of_mem ?_ hheads
      intro g g' hg hg' hr
      rw [htitle g hg, htitle g' hg']
      exact hr
    rw [hys]
    exact (List.pairwise_map (f := fun g => (emitGroup g).2)).mpr hgs
  have henum : (deduplicate_items items threshold).enum.Pairwise
      (fun a b => dupPred threshold a b = false) :=
    enum_pairwise_snd _ _ hpair
  have hsing : dedupGroups (deduplicate_items items threshold) threshold =
      (deduplicate_items items threshold).enum.map (fun q => [q]) :=
    groupStep_all_singleton _ _ henum
  show ((dedupGroups (deduplicate_items items threshold) threshold).map emitGroup).map
      Prod.snd = deduplicate_items items threshold
  rw [hsing, List.map_map, List.map_map]
  have h2 : ((Prod.snd ∘ emitGroup) ∘ fun q : ℕ × Item => [q]) =
      (Prod.snd : ℕ × Item → Item) := funext fun q => rfl
  rw [h2, List.enum_map_snd]

-- items for the C2 witness: the seeds carry the top scores
def iAB5 : Item := ⟨"ab", some 5, "A", "", none⟩
def iBC1 : Item := ⟨"bc", some 1, "B", "", none⟩

/-- Witness for the amended C2 at a concrete input where each group's
seed has the top score. -/
theorem dedup_idempotent_of_seed_representatives_witness :
    deduplicate_items (deduplicate_items [iAB5, iBC1, iCD] (mkRat 1 2)) (mkRat 1 2) =
      deduplicate_items [iAB5, iBC1, iCD] (mkRat 1 2) :=
  dedup_idempotent_of_seed_representatives [iAB5, iBC1, iCD] (mkRat 1 2) (by decide)

/-! ## C3 -/

/-- **C3 (counterexample)**: similarity to the threshold does not decide
co-grouping pairwise.  At threshold 1/2, "bc" and "cd" have similarity 1/2
(at threshold), yet they land in different groups, because grouping only
compares against the group seed "ab" (similar to "bc" but not to "cd"). -/
theorem dedup_threshold_not_pairwise_counterexample :
    is_duplicate iBC.title iCD.title (mkRat 1 2) = true ∧
    dedupGroups [iAB, iBC, iCD] (mkRat 1 2) = [[(0, iAB), (1, iBC)], [(2, iCD)]] := by
  decide

/-- **C3 (amended)**: membership is single-link to the seed: every
non-seed member of a group has similarity ≥ threshold with its group's
*seed*, and each seed has similarity < threshold with every earlier seed.
Two members of one group may be pairwise below the threshold, and members
of different groups may be pairwise at or above it. -/
theorem dedup_seed_link (items : List Item) (threshold : ℚ) :
    (∀ g ∈ dedupGroups items threshold, ∀ q ∈ g.tail,
      is_duplicate g.headI.2.title q.2.title threshold = true) ∧
    (dedupGroups items threshold).Pairwise
      (fun g h => is_duplicate g.headI.2.title h.headI.2.title threshold = false) := by
  constructor
  · intro g hg q hq
    exact groupStep_tail_rel (dupPred threshold) items.enum g hg q hq
  · exact groupStep_heads_pairwise (dupPred threshold) items.enum

/-- Witness for the amended C3 on the concrete three-item input. -/
theorem dedup_seed_link_witness :
    is_duplicate iAB.title iBC.title (mkRat 1 2) = true ∧
    (dedupGroups [iAB, iBC, iCD] (mkRat 1 2)).Pairwise
      (fun g h => is_duplicate g.headI.2.title h.headI.2.title (mkRat 1 2) = false) :=
  ⟨(dedup_seed_link [iAB, iBC, iCD] (mkRat 1 2)).1
      [(0, iAB), (1, iBC)] (by decide) (1, iBC) (by decide),
   (dedup_seed_link [iAB, iBC, iCD] (mkRat 1 2)).2⟩

/-! ## C5 -/

-- one group containing a repeated source and a score order that differs
-- from input order
def kA : Item := ⟨"ab", some 1, "A", "", none⟩
def kB : Item := ⟨"bc", some 9, "B", "", none⟩
def kC : Item := ⟨"ab", some 5, "C", "", none⟩
def kD : Item := ⟨"ab", some 0, "A", "", none⟩

/-- **C5 (counterexample)**: `also_on` is neither de-duplicated nor in
first-seen input order.  One group (seed "ab" absorbs all others at
threshold 1/2) has members with sources A, B, C, A; the representative is
"bc" (score 9, source B), and the code emits `also_on = ["C", "A", "A"]`
— the sources in descending-score order, with "A" repeated — where the
claim's "distinct source values in first-seen order" would be
`["A", "C"]`. -/
theorem dedup_also_on_counterexample :
    deduplicate_items [kA, kB, kC, kD] (mkRat 1 2) =
      [⟨"bc", some 9, "B", "", some ["C", "A", "A"]⟩] ∧
    ¬ (["C", "A", "A"] : List String).Nodup := by decide

/-- The non-empty `source` values of a group, in descending-score order
(the list the source builds after the in-place sort). -/
def groupSources (g : List (ℕ × Item)) : List String :=
  (sortDescBy itemKey g).filterMap
    (fun q => if q.2.source ≠ "" then some q.2.source else none)

/-- **C5 (amended)**: for a group of size > 1, when more than one member
has a non-empty source the representative's `also_on` is set to the
members' non-empty sources in descending-score (stable) order, omitting
every value equal to the representative's own source and keeping repeats;
each listed value is the source of some group member.  Otherwise the
representative is emitted unchanged. -/
theorem dedup_also_on_characterization (items : List Item) (threshold : ℚ)
    (g : List (ℕ × Item)) (hg : g ∈ dedupGroups items threshold) (hlen : 1 < g.length) :
    (1 < (groupSources g).length →
      (emitGroup g).2.also_on = some ((groupSources g).filter
        (fun s => s ≠ (sortDescBy itemKey g).headI.2.source)) ∧
      ∀ s ∈ (groupSources g).filter
          (fun s => s ≠ (sortDescBy itemKey g).headI.2.source),
        ∃ q ∈ g, q.2.source = s) ∧
    (¬ 1 < (groupSources g).length →
      (emitGroup g).2 = (sortDescBy itemKey g).headI.2) := by
  have hmemsrc : ∀ s ∈ (groupSources g).filter
      (fun s => s ≠ (sortDescBy itemKey g).headI.2.source), ∃ q ∈ g, q.2.source = s := by
    intro s hs
    have hs2 : s ∈ groupSources g := List.mem_of_mem_filter hs
    obtain ⟨q, hq, hqs⟩ := List.mem_filterMap.mp hs2
    refine ⟨q, (sortDescBy_perm itemKey g).mem_iff.mp hq, ?_⟩
    by_cases hqe : q.2.source ≠ ""
    · rw [if_pos hqe] at hqs
      exact Option.some.inj hqs
    · rw [if_neg hqe] at hqs
      cases hqs
  cases g with
  | nil => simp at hlen
  | cons a tail =>
    cases tail with
    | nil => simp at hlen
    | cons b bs =>
      constructor
      · intro hsrc
        refine ⟨?_, hmemsrc⟩
        show (emitGroup (a :: b :: bs)).2.also_on = _
        simp only [emitGroup, groupSources] at hsrc ⊢
        rw [if_pos hsrc]
      · intro hsrc
        show (emitGroup (a :: b :: bs)).2 = _
        simp only [emitGroup, groupSources] at hsrc ⊢
        rw [if_neg hsrc]

/-- Witness for the amended C5 on the concrete four-item group. -/
theorem dedup_also_on_characterization_witness :
    (emitGroup [(0, kA), (1, kB), (2, kC), (3, kD)]).2.also_on =
      some ((groupSources [(0, kA), (1, kB), (2, kC), (3, kD)]).filter
        (fun s => s ≠ (sortDescBy itemKey
          [(0, kA), (1, kB), (2, kC), (3, kD)]).headI.2.source)) :=
  ((dedup_also_on_characterization [kA, kB, kC, kD] (mkRat 1 2)
      [(0, kA), (1, kB), (2, kC), (3, kD)] (by decide) (by decide)).1 (by decide)).1

/-! ## C10 -/

/-- Positions of distinct groups are disjoint. -/
theorem dedupGroups_fst_disjoint (items : List Item) (threshold : ℚ) :
    (dedupGroups items threshold).Pairwise
      (fun g1 g2 => ∀ a ∈ g1.map Prod.fst, a ∉ g2.map Prod.fst) := by
  have hperm := (groupStep_join_perm (dupPred threshold) items.enum).map Prod.fst
  have hnodup : ((dedupGroups items threshold).join.map Prod.fst).Nodup := by
    refine hperm.nodup_iff.mpr ?_
    rw [List.enum_map_fst]
    exact List.nodup_range _
  rw [List.map_join] at hnodup
  have h2 := (List.nodup_join.mp hnodup).2
  have h3 := (List.pairwise_map
    (f := fun g : List (ℕ × Item) => g.map Prod.fst)).mp h2
  exact h3.imp (fun hd a ha hb => hd ha hb)

/-- The emitted representative of every group is an element of the input
list as it stands on return (its own entry, updated in place). -/
theorem emit_mem_itemsAfter (items : List Item) (threshold : ℚ)
    (g : List (ℕ × Item)) (hg : g ∈ dedupGroups items threshold) :
    (emitGroup g).2 ∈ itemsAfterDedup items threshold := by
  obtain ⟨q, hqg, hfst, _, _, _, _⟩ := emitGroup_fields g (groupStep_ne_nil _ _ g hg)
  have hq_enum : q ∈ items.enum := groupStep_sub _ _ g hg q hqg
  have hdisj := dedupGroups_fst_disjoint items threshold
  obtain ⟨pre, post, hsplit⟩ := List.append_of_mem hg
  have hfind : ((dedupGroups items threshold).map emitGroup).find?
      (fun r => r.1 == q.1) = some (emitGroup g) := by
    rw [hsplit, List.map_append, List.map_cons, List.find?_append]
    have hpre : (pre.map emitGroup).find? (fun r => r.1 == q.1) = none := by
      rw [List.find?_eq_none]
      intro r hr
      obtain ⟨g', hg'pre, rfl⟩ := List.mem_map.mp hr
      have hg'mem : g' ∈ dedupGroups items threshold := by
        rw [hsplit]
        exact List.mem_append_left _ hg'pre
      obtain ⟨q', hq'g', hfst', _, _, _, _⟩ :=
        emitGroup_fields g' (groupStep_ne_nil _ _ g' hg'mem)
      have hdisj2 := (List.pairwise_append.mp (hsplit ▸ hdisj)).2.2 g' hg'pre g
        (List.mem_cons_self g post)
      have hne : q'.1 ≠ q.1 := by
        intro hEq
        exact hdisj2 q'.1 (List.mem_map.mpr ⟨q', hq'g', rfl⟩)
          (hEq ▸ List.mem_map.mpr ⟨q, hqg, rfl⟩)
      simp [hfst', hne]
    rw [hpre]
    have hpos : ((fun r : ℕ × Item => r.1 == q.1) (emitGroup g)) = true := by
      simp [hfst]
    rw [Option.none_or]
    exact List.find?_cons_of_pos _ hpos
  show (emitGroup g).2 ∈ items.enum.map _
  refine List.mem_map.mpr ⟨q, hq_enum, ?_⟩
  show (match ((dedupGroups items threshold).map emitGroup).find?
      (fun r => r.1 == q.1) with
    | some r => r.2
    | none => q.2) = (emitGroup g).2
  rw [hfind]

/-- **C10**: every element of the output of `deduplicate_items` is an
element of the input list as the call leaves it (`also_on` is assigned in
place on the representative's own dict, so output dicts are input dicts);
modulo that single `also_on` field, every output element is an input
element; the output is never longer than the input; and it is empty
exactly when the input is empty. -/
theorem deduplicate_items_conservative (items : List Item) (threshold : ℚ) :
    (∀ y ∈ deduplicate_items items threshold, y ∈ itemsAfterDedup items threshold) ∧
    (∀ y ∈ deduplicate_items items threshold, ∃ x ∈ items,
      y.title = x.title ∧ y.score = x.score ∧ y.source = x.source ∧ y.url = x.url) ∧
    (deduplicate_items items threshold).length ≤ items.length ∧
    (deduplicate_items items threshold = [] ↔ items = []) := by
  refine ⟨?_, ?_, ?_, ?_⟩
  · intro y hy
    obtain ⟨e, he, rfl⟩ := List.mem_map.mp hy
    obtain ⟨g, hg, rfl⟩ := List.mem_map.mp he
    exact emit_mem_itemsAfter items threshold g hg
  · intro y hy
    obtain ⟨e, he, rfl⟩ := List.mem_map.mp hy
    obtain ⟨g, hg, rfl⟩ := List.mem_map.mp he
    obtain ⟨q, hqg, _, h2, h3, h4, h5⟩ :=
      emitGroup_fields g (groupStep_ne_nil _ _ g hg)
    have hq_enum : q ∈ items.enum := groupStep_sub _ _ g hg q hqg
    exact ⟨q.2, List.snd_mem_of_mem_enum hq_enum, h2, h3, h4, h5⟩
  · have h1 : (deduplicate_items items threshold).length =
        (dedupGroups items threshold).length := by
      simp [deduplicate_items]
    rw [h1]
    have h2 := groupStep_length_le (dupPred threshold) items.enum
    simpa [List.enum_length] using h2
  · constructor
    · intro h
      have : dedupGroups items threshold = [] := by
        have := congrArg List.length h
        simp [deduplicate_items] at this
        exact this
      have h3 := (groupStep_eq_nil_iff (dupPred threshold) items.enum).mp this
      exact List.enum_eq_nil.mp h3
    · intro h
      subst h
      rfl

/-- Witness for C10 on the concrete three-item input. -/
theorem deduplicate_items_conservative_witness :
    (∃ x ∈ ([iAB, iBC, iCD] : List Item),
      (deduplicate_items [iAB, iBC, iCD] (mkRat 1 2)).headI.title = x.title ∧
      (deduplicate_items [iAB, iBC, iCD] (mkRat 1 2)).headI.score = x.score ∧
      (deduplicate_items [iAB, iBC, iCD] (mkRat 1 2)).headI.source = x.source ∧
      (deduplicate_items [iAB, iBC, iCD] (mkRat 1 2)).headI.url = x.url) ∧
    (deduplicate_items [iAB, iBC, iCD] (mkRat 1 2)).headI ∈
      itemsAfterDedup [iAB, iBC, iCD] (mkRat 1 2) :=
  ⟨(deduplicate_items_conservative [iAB, iBC, iCD] (mkRat 1 2)).2.1
      (deduplicate_items [iAB, iBC, iCD] (mkRat 1 2)).headI (by decide),
   (deduplicate_items_conservative [iAB, iBC, iCD] (mkRat 1 2)).1
      (deduplicate_items [iAB, iBC, iCD] (mkRat 1 2)).headI (by decide)⟩

/-! ## A small regex engine for the categorizer patterns

The categorizer keyword patterns (`categorizer.py` / `policy_categorizer.py`)
use literals, `\d`, `\s`, `.`, character classes, `?`, `+`, `*` and the
zero-width word boundary `\b`; each pattern is transcribed below as an
explicit syntax tree.  `re.search` existence semantics: a pattern matches a
string iff some start position admits a match.  The matcher enumerates all
reachable states (suffix still to match, preceding character for `\b`);
greedy-vs-lazy matching is irrelevant for existence.  `re.IGNORECASE` is
inert here because every pattern is lower-case and every searched text is
lower-cased first. -/

/-- Regex abstract syntax: empty word, literal, character class, sequence,
alternation, Kleene star, word boundary `\b`. -/
inductive RE where
  | eps : RE
  | lit : Char → RE
  | cls : (Char → Bool) → RE
  | seq : RE → RE → RE
  | alt : RE → RE → RE
  | star : RE → RE
  | wordB : RE

/-- Word-character test of an optional character (`none` = string edge). -/
def isWordOpt : Option Char → Bool
  | none => false
  | some c => pyIsWordChar c

/-- `\b` holds between the preceding character and the rest. -/
def isWordBoundary (prev : Option Char) (cs : List Char) : Bool :=
  isWordOpt prev != isWordOpt (match cs with | [] => none | c :: _ => some c)

/-- All states (last consumed character, remaining suffix) reachable by
matching `re` against a prefix of `cs`.  The fuel bounds the recursion
depth; every recursive call decreases it, and the `star` case additionally
requires strict consumption, so depth `(size + 1) * (|cs| + 2)` (see
`reFuel`) is always sufficient. -/
def reRun : Nat → RE → Option Char → List Char → List (Option Char × List Char)
  | 0, _, _, _ => []
  | _ + 1, .eps, prev, cs => [(prev, cs)]
  | _ + 1, .lit c, _, cs =>
    match cs with
    | [] => []
    | x :: rest => if x = c then [(some x, rest)] else []
  | _ + 1, .cls p, _, cs =>
    match cs with
    | [] => []
    | x :: rest => if p x then [(some x, rest)] else []
  | _ + 1, .wordB, prev, cs => if isWordBoundary prev cs then [(prev, cs)] else []
  | fuel + 1, .seq r1 r2, prev, cs =>
    (reRun fuel r1 prev cs).bind (fun st => reRun fuel r2 st.1 st.2)
  | fuel + 1, .alt r1 r2, prev, cs => reRun fuel r1 prev cs ++ reRun fuel r2 prev cs
  | fuel + 1, .star r, prev, cs =>
    (prev, cs) :: (reRun fuel r prev cs).bind (fun st =>
      if st.2.length < cs.length then reRun fuel (.star r) st.1 st.2 else [])

/-- Structural size of a regex. -/
def reSize : RE → Nat
  | .eps | .lit _ | .cls _ | .wordB => 1
  | .seq r1 r2 => reSize r1 + reSize r2 + 1
  | .alt r1 r2 => reSize r1 + reSize r2 + 1
  | .star r => reSize r + 1

/-- Sufficient fuel for `reRun`: along any call path the regex component
shrinks except when a `star` unrolls, which strictly consumes input. -/
def reFuel (r : RE) (cs : List Char) : Nat := (reSize r + 1) * (cs.length + 2)

/-- `re.search` over the suffixes of the text (positions 0..n). -/
def searchFrom (r : RE) : Option Char → List Char → Bool
  | prev, [] => !(reRun (reFuel r []) r prev []).isEmpty
  | prev, c :: rest =>
    !(reRun (reFuel r (c :: rest)) r prev (c :: rest)).isEmpty ||
      searchFrom r (some c) rest

/-- `re.search(pattern, text) is not None` on a character list. -/
def reSearch (r : RE) (text : List Char) : Bool := searchFrom r none text

/-- Literal character sequence. -/
def rstr (s : String) : RE := s.toList.foldr (fun c acc => RE.seq (RE.lit c) acc) RE.eps

/-- `X+` -/
def rplus (r : RE) : RE := RE.seq r (RE.star r)

/-- `X?` -/
def ropt (r : RE) : RE := RE.alt r RE.eps

/-- Sequence of regexes. -/
def rseq (l : List RE) : RE := l.foldr RE.seq RE.eps

/-- `\d` -/
def rdigit : RE := RE.cls Char.isDigit

/-- `\s` -/
def rspace : RE := RE.cls pyIsSpace

/-- newline -/
def chr10 : Char := Char.ofNat 10

/-- `.` (any character but newline). -/
def rdot : RE := RE.cls (fun c => c != chr10)

-- sanity checks for the engine against Python re.search
example : reSearch (rseq [RE.wordB, rstr "release", RE.wordB]) "released x".toList = false := by decide
example : reSearch (rseq [RE.wordB, rstr "release", RE.wordB]) "a release!".toList = true := by decide
example : reSearch (rseq [RE.wordB, RE.lit 'v', rplus rdigit, RE.lit '.']) "cursor v0.45.0".toList = true := by decide
example : reSearch (rseq [RE.wordB, rstr "how", rplus rspace, rstr "to", RE.wordB]) "how to use x".toList = true := by decide
example : reSearch (rseq [RE.wordB, rstr "or", RE.wordB, RE.star rdot, RE.wordB, rstr "which", RE.wordB]) "a or b which c".toList = true := by decide
example : reSearch (rseq [RE.wordB, rstr "or", RE.wordB, RE.star rdot, RE.wordB, rstr "which", RE.wordB]) "orwhich".toList = false := by decide

/-- `\bWORD\b` -/
def rword (w : String) : RE := rseq [RE.wordB, rstr w, RE.wordB]

/-- `\bSTEM` (prefix match from a word boundary). -/
def rstem (w : String) : RE := rseq [RE.wordB, rstr w]

/-- the character class `[\s-]` -/
def rsd : RE := RE.cls (fun c => pyIsSpace c || c = '-')

/-- apostrophe -/
def chr39 : Char := Char.ofNat 39

/-- `CATEGORIES` of `categorizer.py` (name, keyword patterns, priority),
in declaration order; each pattern is transcribed from the source regex
noted alongside. -/
def CATEGORIES : List (String × List RE × ℕ) :=
  [("RELEASE",
    ([rword "release",                                              -- \brelease\b
      rseq [RE.wordB, RE.lit 'v', rplus rdigit, RE.lit '.'],        -- \bv\d+\.
      rseq [RE.wordB, rstr "version", RE.star rspace, rdigit],      -- \bversion\s*\d
      rword "changelog",                                            -- \bchangelog\b
      rword "update",                                               -- \bupdate\b
      rseq [RE.wordB, rstr "launche", ropt (RE.lit 'd'), RE.wordB], -- \blaunched?\b
      rstem "announce",                                             -- \bannounce
      rseq [RE.wordB, rstr "new", rplus rspace, rstr "feature"],    -- \bnew\s+feature
      rseq [RE.wordB, rstr "what", ropt (RE.lit chr39), RE.lit 's',
        rplus rspace, rstr "new", RE.wordB],                        -- \bwhat'?s\s+new\b
      rstem "introduc"],                                            -- \bintroduc
     1)),
   ("TUTORIAL",
    ([rseq [RE.wordB, rstr "how", rplus rspace, rstr "to", RE.wordB],      -- \bhow\s+to\b
      rword "guide",                                                       -- \bguide\b
      rword "tutorial",                                                    -- \btutorial\b
      rseq [RE.wordB, rstr "getting", rplus rspace, rstr "started", RE.wordB], -- \bgetting\s+started\b
      rword "walkthrough",                                                 -- \bwalkthrough\b
      rseq [RE.wordB, rstr "step", rsd, rstr "by", rsd, rstr "step", RE.wordB], -- \bstep[\s-]by[\s-]step\b
      rword "learn",                                                       -- \blearn\b
      rseq [RE.wordB, rstr "beginner", ropt (RE.lit 's'), RE.wordB],       -- \bbeginners?\b
      rseq [RE.wordB, rstr "intro", ropt (rstr "duction"), rplus rspace,
        rstr "to", RE.wordB]],                                             -- \bintro(duction)?\s+to\b
     2)),
   ("WORKFLOW",
    ([rword "workflow",                                                    -- \bworkflow\b
      rseq [RE.wordB, rstr "automatio", ropt (RE.lit 'n'), RE.wordB],      -- \bautomation?\b
      rword "productivity",                                                -- \bproductivity\b
      rseq [RE.wordB, rstr "tip", ropt (RE.lit 's'), RE.wordB],            -- \btips?\b
      rword "setup",                                                       -- \bsetup\b
      rstem "configur",                                                    -- \bconfigur
      rstem "integrat",                                                    -- \bintegrat
      rword "pipeline",                                                    -- \bpipeline\b
      rseq [RE.wordB, rstr "best", rplus rspace, rstr "practice",
        ropt (RE.lit 's'), RE.wordB],                                      -- \bbest\s+practices?\b
      rstem "optimiz"],                                                    -- \boptimiz
     3)),
   ("COMPARISON",
    ([rseq [RE.wordB, rstr "vs", ropt (RE.lit '.'), RE.wordB],             -- \bvs\.?\b
      rword "versus",                                                      -- \bversus\b
      rstem "compare",                                                     -- \bcompare
      rstem "alternative",                                                 -- \balternative
      rseq [RE.wordB, rstr "better", rplus rspace, rstr "than", RE.wordB], -- \bbetter\s+than\b
      rseq [RE.wordB, rstr "or", RE.wordB, RE.star rdot, RE.wordB,
        rstr "which", RE.wordB]],                                          -- \bor\b.*\bwhich\b
     4)),
   ("DISCUSSION",
    ([rseq [RE.wordB, rstr "thought", ropt (RE.lit 's'), RE.wordB],        -- \bthoughts?\b
      rword "opinion",                                                     -- \bopinion\b
      rstem "discuss",                                                     -- \bdiscuss
      rword "experience",                                                  -- \bexperience\b
      rword "review",                                                      -- \breview\b
      rstem "impression",                                                  -- \bimpression
      rword "ama",                                                         -- \bama\b
      rseq [RE.wordB, rstr "ask", rspace]],                                -- \bask\s
     5)),
   ("NEWS", ([], 99))]

/-- `POLICY_CATEGORIES` of `policy_categorizer.py` (name, keyword
patterns, priority), in declaration order (the display emoji field plays
no role in categorization and is omitted). -/
def POLICY_CATEGORIES : List (String × List RE × ℕ) :=
  [("MONETIZATION",
    ([rstem "demonetiz",                                                   -- \bdemonetiz
      rword "adsense",                                                     -- \badsense\b
      rword "revenue",                                                     -- \brevenue\b
      rword "cpm",                                                         -- \bcpm\b
      rword "ypp",                                                         -- \bypp\b
      rseq [RE.wordB, rstr "partner", RE.star rspace, rstr "program"],     -- \bpartner\s*program
      rstem "monetiz",                                                     -- \bmonetiz
      rseq [RE.wordB, rstr "ad", ropt (RE.lit 's'), rplus rspace,
        rstr "policy"],                                                    -- \bads?\s+policy
      rseq [RE.wordB, rstr "ad", rplus rspace, rstr "suitab"],             -- \bad\s+suitab
      rstem "advertiser",                                                  -- \badvertiser
      rseq [RE.wordB, rstr "earning", ropt (RE.lit 's'), RE.wordB],        -- \bearnings?\b
      rstem "payment"],                                                    -- \bpayment
     1)),
   ("CONTENT_GUIDELINES",
    ([rseq [RE.wordB, rstr "community", rplus rspace, rstr "guideline",
        ropt (RE.lit 's'), RE.wordB],                                      -- \bcommunity\s+guidelines?\b
      rword "strike",                                                      -- \bstrike\b
      rseq [RE.wordB, rstr "remove", ropt (RE.lit 'd'), RE.wordB],         -- \bremoved?\b
      rstem "violat",                                                      -- \bviolat
      rstem "restrict",                                                    -- \brestrict
      rseq [RE.wordB, rstr "age", rsd, rstr "restrict"],                   -- \bage[\s-]restrict
      rstem "suspend",                                                     -- \bsuspend
      rstem "terminat",                                                    -- \bterminat
      rseq [RE.wordB, rstr "ban", ropt (rstr "ned"), RE.wordB],            -- \bban(ned)?\b
      rword "appeal",                                                      -- \bappeal\b
      rword "warning"],                                                    -- \bwarning\b
     2)),
   ("COPYRIGHT",
    ([rword "copyright",                                                   -- \bcopyright\b
      rword "dmca",                                                        -- \bdmca\b
      rseq [RE.wordB, rstr "content", RE.star rspace, rstr "id", RE.wordB], -- \bcontent\s*id\b
      rword "claim",                                                       -- \bclaim\b
      rword "takedown",                                                    -- \btakedown\b
      rseq [RE.wordB, rstr "fair", rplus rspace, rstr "use", RE.wordB],    -- \bfair\s+use\b
      rstem "licens",                                                      -- \blicens
      rseq [RE.wordB, rstr "music", rplus rspace, rstr "policy"]],         -- \bmusic\s+policy
     3)),
   ("ALGORITHM",
    ([rword "algorithm",                                                   -- \balgorithm\b
      rstem "shadowban",                                                   -- \bshadowban
      rseq [RE.wordB, rstr "impression", ropt (RE.lit 's'), RE.wordB],     -- \bimpressions?\b
      rword "reach",                                                       -- \breach\b
      rstem "recommend",                                                   -- \brecommend
      rstem "discover",                                                    -- \bdiscover
      rword "visibility",                                                  -- \bvisibility\b
      rseq [RE.wordB, rstr "suppresse", ropt (RE.lit 'd'), RE.wordB],      -- \bsuppressed?\b
      rseq [RE.wordB, rstr "view", ropt (RE.lit 's'), rplus rspace,
        rstr "drop"],                                                      -- \bviews?\s+drop
      rword "trending"],                                                   -- \btrending\b
     4)),
   ("TERMS_OF_SERVICE",
    ([rword "tos",                                                         -- \btos\b
      rseq [RE.wordB, rstr "terms", rplus rspace, rstr "of", rplus rspace,
        rstr "service", RE.wordB],                                         -- \bterms\s+of\s+service\b
      rseq [RE.wordB, rstr "policy", rplus rspace, rstr "update"],         -- \bpolicy\s+update
      rseq [RE.wordB, rstr "policy", rplus rspace, rstr "change"],         -- \bpolicy\s+change
      rseq [RE.wordB, rstr "new", rplus rspace, rstr "policy"],            -- \bnew\s+policy
      rseq [RE.wordB, rstr "rule", ropt (RE.lit 's'), rplus rspace,
        rstr "change"],                                                    -- \brules?\s+change
      rseq [RE.wordB, rstr "guideline", ropt (RE.lit 's'), rplus rspace,
        rstr "update"]],                                                   -- \bguidelines?\s+update
     5)),
   ("API_CHANGES",
    ([rword "api",                                                         -- \bapi\b
      rword "developer",                                                   -- \bdeveloper\b
      rword "quota",                                                       -- \bquota\b
      rstem "endpoint",                                                    -- \bendpoint
      rseq [RE.wordB, rstr "deprecate", ropt (RE.lit 'd'), RE.wordB],      -- \bdeprecated?\b
      rseq [RE.wordB, rstr "rate", rplus rspace, rstr "limit"],            -- \brate\s+limit
      rword "oauth",                                                       -- \boauth\b
      rword "sdk"],                                                       -- \bsdk\b
     6)),
   ("AI_POLICY",
    ([rseq [RE.wordB, rstr "ai", rsd, rstr "generat"],                     -- \bai[\s-]generat
      rword "synthetic",                                                   -- \bsynthetic\b
      rword "deepfake",                                                    -- \bdeepfake\b
      rseq [RE.wordB, rstr "artificial", rplus rspace, rstr "intelligen"], -- \bartificial\s+intelligen
      rseq [RE.wordB, rstr "machine", rplus rspace, rstr "learn"],         -- \bmachine\s+learn
      rseq [RE.wordB, rstr "generat", RE.star rdot, rplus rspace,
        rstr "content"],                                                   -- \bgenerat.*\s+content
      rseq [RE.wordB, rstr "dream", RE.star rspace, rstr "track"],         -- \bdream\s*track
      rseq [RE.wordB, rstr "ai", rplus rspace, rstr "disclos"],            -- \bai\s+disclos
      rseq [RE.wordB, rstr "ai", rplus rspace, rstr "label"]],             -- \bai\s+label
     7)),
   ("GENERAL", ([], 99))]

/-! ## Stable ascending insertion sort (model of `matches.sort(key=...)`) -/

section StableSortAsc

variable {α : Type*}

/-- Insert into an ascending-sorted list, before the first strictly
larger key, after equal keys already present (stability). -/
def insertAscBy (key : α → ℕ) (x : α) : List α → List α
  | [] => [x]
  | y :: ys => if key x ≤ key y then x :: y :: ys else y :: insertAscBy key x ys

/-- Stable sort, ascending by key: model of Python `list.sort(key=...)`. -/
def sortAscBy (key : α → ℕ) : List α → List α
  | [] => []
  | x :: xs => insertAscBy key x (sortAscBy key xs)

theorem insertAscBy_eq_dual (key : α → ℕ) (x : α) (l : List α) :
    insertAscBy key x l =
      insertDescBy (β := ℕᵒᵈ) (fun a => OrderDual.toDual (key a)) x l := by
  induction l with
  | nil => rfl
  | cons y ys ih =>
    by_cases h : key x ≤ key y
    · have h2 : OrderDual.toDual (key y) ≤ OrderDual.toDual (key x) := h
      simp [insertAscBy, insertDescBy, h, h2]
    · have h2 : ¬ OrderDual.toDual (key y) ≤ OrderDual.toDual (key x) := h
      simp [insertAscBy, insertDescBy, h, h2, ih]

theorem sortAscBy_eq_dual (key : α → ℕ) (l : List α) :
    sortAscBy key l =
      sortDescBy (β := ℕᵒᵈ) (fun a => OrderDual.toDual (key a)) l := by
  induction l with
  | nil => rfl
  | cons x xs ih => simp [sortAscBy, sortDescBy, ih, insertAscBy_eq_dual]

theorem sortAscBy_perm (key : α → ℕ) (l : List α) :
    List.Perm (sortAscBy key l) l := by
  rw [sortAscBy_eq_dual]
  exact sortDescBy_perm _ l

/-- The head of the stable ascending sort has a minimal key. -/
theorem sortAscBy_headI_key_min (key : α → ℕ) [Inhabited α] (l : List α) :
    ∀ x ∈ l, key (sortAscBy key l).headI ≤ key x := by
  intro x hx
  rw [sortAscBy_eq_dual]
  exact sortDescBy_headI_key_max (β := ℕᵒᵈ) (fun a => OrderDual.toDual (key a)) l x hx

/-- Among minimal-key elements the head of the ascending sort is the one
earliest in the input. -/
theorem sortAscBy_headI_earliest (key : α → ℕ) (idx : α → ℕ) [Inhabited α]
    (l : List α) (hp : l.Pairwise (fun a b => idx a < idx b)) :
    ∀ x ∈ l, key x = key (sortAscBy key l).headI →
      idx (sortAscBy key l).headI ≤ idx x := by
  intro x hx hk
  rw [sortAscBy_eq_dual] at hk ⊢
  exact sortDescBy_headI_earliest (β := ℕᵒᵈ) (fun a => OrderDual.toDual (key a))
    idx l hp x hx (by exact_mod_cast congrArg OrderDual.toDual hk)

end StableSortAsc

/-! ## The categorizers -/

/-- The match-collection loop shared by both categorizers: for each
category in declaration order, search its patterns in order and record
`(name, priority)` on the first hit (the `break` makes further patterns of
that category irrelevant, which is exactly `List.any`). -/
def categoryMatches (cats : List (String × List RE × ℕ)) (text : List Char) :
    List (String × ℕ) :=
  cats.filterMap (fun c =>
    if c.2.1.any (fun r => reSearch r text) then some (c.1, c.2.2) else none)

/-- The type-hint defaulting of `categorize` (lines 88-95): consulted only
when no keyword matched and the hint string is truthy. -/
def hintCategory : Option String → String
  | some ct =>
    if ct = "" then "NEWS"
    else if pyLower ct = "release" then "RELEASE"
    else if pyLower ct = "discussion" ∨ pyLower ct = "post" then "DISCUSSION"
    else "NEWS"
  | none => "NEWS"

/-- `categorizer.categorize`: empty title short-circuits to "NEWS";
otherwise collect matches over the lowered title, sort them by priority
(stable) and return the first; with no match consult the `content_type`
hint ("release" → "RELEASE"; "discussion"/"post" → "DISCUSSION"); finally
fall back to "NEWS". -/
def categorize (title : String) (content_type : Option String) : String :=
  if title = "" then "NEWS"
  else
    let t := title.toList.map pyLowerChar
    match sortAscBy (fun m => m.2) (categoryMatches CATEGORIES t) with
    | m :: _ => m.1
    | [] => hintCategory content_type

/-- The text `categorize_policy` analyzes: the lowered title, plus a space
and the first 500 characters of the lowered content when a truthy content
is given (`policy_categorizer.py` lines 98-100). -/
def policyText (title : String) (content : Option String) : List Char :=
  (title.toList.map pyLowerChar) ++
    (match content with
      | some c => if c = "" then [] else ' ' :: (c.toList.map pyLowerChar).take 500
      | none => [])

/-- `policy_categorizer.categorize_policy`: empty title short-circuits to
"GENERAL"; otherwise collect matches over the analyzed text, sort by
priority (stable), return the first, else "GENERAL". -/
def categorize_policy (title : String) (content : Option String) : String :=
  if title = "" then "GENERAL"
  else
    match sortAscBy (fun m => m.2) (categoryMatches POLICY_CATEGORIES (policyText title content)) with
    | m :: _ => m.1
    | [] => "GENERAL"

-- sanity checks: the documented examples and the hint path
example : categorize "Cursor v0.45.0 Released - New Multi-file Editing" none = "RELEASE" := by decide
example : categorize "How to Use Claude Code for Large Refactors" none = "TUTORIAL" := by decide
example : categorize "" none = "NEWS" := by decide
example : categorize "" (some "release") = "NEWS" := by decide
example : categorize "zzz" (some "release") = "RELEASE" := by decide
example : categorize_policy "Channel demonetized without warning" none = "MONETIZATION" := by decide
example : categorize_policy "zzz" none = "GENERAL" := by decide

/-! ## C6 -/

theorem sortAscBy_eq_nil_iff {α : Type*} (key : α → ℕ) (l : List α) :
    sortAscBy key l = [] ↔ l = [] := by
  rw [sortAscBy_eq_dual]
  exact sortDescBy_eq_nil_iff _ l

/-- The head of the stable ascending sort is the first element of the
input attaining the minimal key: everything before it in the input has a
strictly larger key, everything after it a key at least as large. -/
theorem sortAscBy_headI_first_min {α : Type*} [Inhabited α] (key : α → ℕ) :
    ∀ l : List α, l ≠ [] →
      ∃ pre post, l = pre ++ (sortAscBy key l).headI :: post ∧
        (∀ x ∈ pre, key (sortAscBy key l).headI < key x) ∧
        (∀ x ∈ post, key (sortAscBy key l).headI ≤ key x) := by
  intro l
  induction l with
  | nil => exact fun h => absurd rfl h
  | cons a xs ih =>
    intro _
    cases hs : sortAscBy key xs with
    | nil =>
      have hx : xs = [] := by
        have hp := sortAscBy_perm key xs
        rw [hs] at hp
        exact hp.symm.eq_nil
      subst hx
      exact ⟨[], [], by simp [sortAscBy, insertAscBy], by simp, by simp⟩
    | cons y ys =>
      have hxs_ne : xs ≠ [] := by
        intro h
        rw [h] at hs
        simp [sortAscBy] at hs
      have hyhead : (sortAscBy key xs).headI = y := by rw [hs]; rfl
      by_cases hk : key a ≤ key y
      · have hh : (sortAscBy key (a :: xs)).headI = a := by
          simp [sortAscBy, hs, insertAscBy, hk]
        refine ⟨[], xs, by rw [hh]; rfl, by simp, ?_⟩
        rw [hh]
        intro x hx
        have hmin := sortAscBy_headI_key_min key xs x hx
        rw [hyhead] at hmin
        exact le_trans hk hmin
      · have hh : (sortAscBy key (a :: xs)).headI = y := by
          simp [sortAscBy, hs, insertAscBy, hk]
        obtain ⟨pre, post, hsplit, hpre, hpost⟩ := ih hxs_ne
        rw [hyhead] at hsplit hpre hpost
        refine ⟨a :: pre, post, ?_, ?_, ?_⟩
        · rw [hh, List.cons_append, ← hsplit]
        · intro x hx
          rw [hh]
          rcases List.mem_cons.mp hx with rfl | hx
          · exact Nat.lt_of_not_le hk
          · exact hpre x hx
        · intro x hx
          rw [hh]
          exact hpost x hx

/-- A match entry names one of the configured categories. -/
theorem categoryMatches_fst_mem (cats : List (String × List RE × ℕ))
    (text : List Char) (m : String × ℕ) (hm : m ∈ categoryMatches cats text) :
    m.1 ∈ cats.map (fun c => c.1) := by
  obtain ⟨c, hc, hsome⟩ := List.mem_filterMap.mp hm
  by_cases h : c.2.1.any (fun r => reSearch r text)
  · rw [if_pos h] at hsome
    cases hsome
    exact List.mem_map.mpr ⟨c, hc, rfl⟩
  · rw [if_neg h] at hsome
    cases hsome

/-- Resolution of a non-empty match list: the returned head is the first
match of minimal priority. -/
theorem matches_head_resolution (cats : List (String × List RE × ℕ))
    (text : List Char) (hm : categoryMatches cats text ≠ []) :
    ∃ pre post m, categoryMatches cats text = pre ++ m :: post ∧
      (sortAscBy (fun m => m.2) (categoryMatches cats text)).headI = m ∧
      (∀ m' ∈ pre, m.2 < m'.2) ∧ (∀ m' ∈ post, m.2 ≤ m'.2) := by
  obtain ⟨pre, post, hsplit, hpre, hpost⟩ :=
    sortAscBy_headI_first_min (fun m => m.2) (categoryMatches cats text) hm
  exact ⟨pre, post, _, hsplit, rfl, hpre, hpost⟩

theorem hintCategory_cases (ct : Option String) :
    hintCategory ct = "RELEASE" ∨ hintCategory ct = "DISCUSSION" ∨
      hintCategory ct = "NEWS" := by
  cases ct with
  | none => right; right; rfl
  | some c =>
    simp only [hintCategory]
    by_cases h1 : c = ""
    · rw [if_pos h1]
      exact Or.inr (Or.inr rfl)
    · rw [if_neg h1]
      by_cases h2 : pyLower c = "release"
      · rw [if_pos h2]
        exact Or.inl rfl
      · rw [if_neg h2]
        by_cases h3 : pyLower c = "discussion" ∨ pyLower c = "post"
        · rw [if_pos h3]
          exact Or.inr (Or.inl rfl)
        · rw [if_neg h3]
          exact Or.inr (Or.inr rfl)

/-- **C6 (counterexample)**: with a recognized content-type hint, a title
matching no category does *not* get the fallback: `categorize("zzz",
"release")` is "RELEASE", not "NEWS". -/
theorem categorize_hint_counterexample :
    categoryMatches CATEGORIES ("zzz".toList.map pyLowerChar) = [] ∧
    categorize "zzz" (some "release") = "RELEASE" ∧ "RELEASE" ≠ "NEWS" := by
  refine ⟨by decide, by decide, by decide⟩

/-- **C6 (amended)**: both categorizers evaluate every category's patterns
in declaration order with per-category short-circuit; when at least one
category matches, the result is the first match (in declaration order) of
lowest priority number.  When nothing matches, the policy categorizer
returns its fallback "GENERAL"; the general categorizer falls back to
"NEWS" only through the hint table (a truthy hint "release" yields
"RELEASE", "discussion"/"post" yields "DISCUSSION", anything else
"NEWS").  The empty title short-circuits to the fallback in both, before
the hint is consulted.  The result is always one of the configured
category names (never null). -/
theorem categorizers_resolution :
    (∀ (title : String) (ct : Option String), title ≠ "" →
      categoryMatches CATEGORIES (title.toList.map pyLowerChar) ≠ [] →
      ∃ pre post m,
        categoryMatches CATEGORIES (title.toList.map pyLowerChar) = pre ++ m :: post ∧
        categorize title ct = m.1 ∧
        (∀ m' ∈ pre, m.2 < m'.2) ∧ (∀ m' ∈ post, m.2 ≤ m'.2)) ∧
    (∀ (title : String) (content : Option String), title ≠ "" →
      categoryMatches POLICY_CATEGORIES (policyText title content) ≠ [] →
      ∃ pre post m,
        categoryMatches POLICY_CATEGORIES (policyText title content) = pre ++ m :: post ∧
        categorize_policy title content = m.1 ∧
        (∀ m' ∈ pre, m.2 < m'.2) ∧ (∀ m' ∈ post, m.2 ≤ m'.2)) ∧
    (∀ (title : String) (ct : Option String), title ≠ "" →
      categoryMatches CATEGORIES (title.toList.map pyLowerChar) = [] →
      categorize title ct = hintCategory ct) ∧
    (∀ (title : String) (content : Option String), title ≠ "" →
      categoryMatches POLICY_CATEGORIES (policyText title content) = [] →
      categorize_policy title content = "GENERAL") ∧
    (∀ ct, categorize "" ct = "NEWS") ∧
    (∀ content, categorize_policy "" content = "GENERAL") ∧
    (∀ (title : String) (ct : Option String),
      categorize title ct ∈ ["RELEASE", "TUTORIAL", "WORKFLOW", "COMPARISON",
        "DISCUSSION", "NEWS"]) ∧
    (∀ (title : String) (content : Option String),
      categorize_policy title content ∈ ["MONETIZATION", "CONTENT_GUIDELINES",
        "COPYRIGHT", "ALGORITHM", "TERMS_OF_SERVICE", "API_CHANGES", "AI_POLICY",
        "GENERAL"]) := by
  have hgen : ∀ (title : String) (ct : Option String), title ≠ "" →
      categoryMatches CATEGORIES (title.toList.map pyLowerChar) ≠ [] →
      ∃ pre post m,
        categoryMatches CATEGORIES (title.toList.map pyLowerChar) = pre ++ m :: post ∧
        categorize title ct = m.1 ∧
        (∀ m' ∈ pre, m.2 < m'.2) ∧ (∀ m' ∈ post, m.2 ≤ m'.2) := by
    intro title ct hne hm
    obtain ⟨pre, post, m, hsplit, hhead, hpre, hpost⟩ :=
      matches_head_resolution CATEGORIES _ hm
    refine ⟨pre, post, m, hsplit, ?_, hpre, hpost⟩
    cases hs : sortAscBy (fun m => m.2)
        (categoryMatches CATEGORIES (title.toList.map pyLowerChar)) with
    | nil => exact absurd ((sortAscBy_eq_nil_iff _ _).mp hs) hm
    | cons m0 rest =>
      have hm0 : m0 = m := by
        rw [hs] at hhead
        exact hhead
      simp only [categorize, if_neg hne]
      rw [hs, hm0]
  have hpol : ∀ (title : String) (content : Option String), title ≠ "" →
      categoryMatches POLICY_CATEGORIES (policyText title content) ≠ [] →
      ∃ pre post m,
        categoryMatches POLICY_CATEGORIES (policyText title content) = pre ++ m :: post ∧
        categorize_policy title content = m.1 ∧
        (∀ m' ∈ pre, m.2 < m'.2) ∧ (∀ m' ∈ post, m.2 ≤ m'.2) := by
    intro title content hne hm
    obtain ⟨pre, post, m, hsplit, hhead, hpre, hpost⟩ :=
      matches_head_resolution POLICY_CATEGORIES _ hm
    refine ⟨pre, post, m, hsplit, ?_, hpre, hpost⟩
    cases hs : sortAscBy (fun m => m.2)
        (categoryMatches POLICY_CATEGORIES (policyText title content)) with
    | nil => exact absurd ((sortAscBy_eq_nil_iff _ _).mp hs) hm
    | cons m0 rest =>
      have hm0 : m0 = m := by
        rw [hs] at hhead
        exact hhead
      simp only [categorize_policy, if_neg hne]
      rw [hs, hm0]
  refine ⟨hgen, hpol, ?_, ?_, fun ct => rfl, fun content => rfl, ?_, ?_⟩
  · intro title ct hne hm
    have hs : sortAscBy (fun m => m.2)
        (categoryMatches CATEGORIES (title.toList.map pyLowerChar)) = [] := by
      rw [hm]
      rfl
    simp only [categorize, if_neg hne]
    rw [hs]
  · intro title content hne hm
    have hs : sortAscBy (fun m => m.2)
        (categoryMatches POLICY_CATEGORIES (policyText title content)) = [] := by
      rw [hm]
      rfl
    simp only [categorize_policy, if_neg hne]
    rw [hs]
  · intro title ct
    by_cases hne : title = ""
    · subst hne
      simp [categorize]
    · simp only [categorize, if_neg hne]
      cases hs : sortAscBy (fun m => m.2)
          (categoryMatches CATEGORIES (title.toList.map pyLowerChar)) with
      | nil =>
        rcases hintCategory_cases ct with h | h | h <;> simp [h]
      | cons m0 rest =>
        have hmem : m0 ∈ categoryMatches CATEGORIES (title.toList.map pyLowerChar) := by
          have : m0 ∈ sortAscBy (fun m => m.2)
              (categoryMatches CATEGORIES (title.toList.map pyLowerChar)) := by
            rw [hs]
            simp
          exact (sortAscBy_perm _ _).mem_iff.mp this
        have hfst := categoryMatches_fst_mem CATEGORIES _ m0 hmem
        have htable : CATEGORIES.map (fun c => c.1) =
            ["RELEASE", "TUTORIAL", "WORKFLOW", "COMPARISON", "DISCUSSION", "NEWS"] := rfl
        rw [htable] at hfst
        simpa using hfst
  · intro title content
    by_cases hne : title = ""
    · subst hne
      simp [categorize_policy]
    · simp only [categorize_policy, if_neg hne]
      cases hs : sortAscBy (fun m => m.2)
          (categoryMatches POLICY_CATEGORIES (policyText title content)) with
      | nil => simp
      | cons m0 rest =>
        have hmem : m0 ∈ categoryMatches POLICY_CATEGORIES (policyText title content) := by
          have : m0 ∈ sortAscBy (fun m => m.2)
              (categoryMatches POLICY_CATEGORIES (policyText title content)) := by
            rw [hs]
            simp
          exact (sortAscBy_perm _ _).mem_iff.mp this
        have hfst := categoryMatches_fst_mem POLICY_CATEGORIES _ m0 hmem
        have htable : POLICY_CATEGORIES.map (fun c => c.1) =
            ["MONETIZATION", "CONTENT_GUIDELINES", "COPYRIGHT", "ALGORITHM",
              "TERMS_OF_SERVICE", "API_CHANGES", "AI_POLICY", "GENERAL"] := rfl
        rw [htable] at hfst
        simpa using hfst

/-- Witness for the amended C6: a matching title resolves through the
match list, a non-matching one through the hint table. -/
theorem categorizers_resolution_witness :
    (∃ pre post m,
      categoryMatches CATEGORIES ("guide".toList.map pyLowerChar) = pre ++ m :: post ∧
      categorize "guide" none = m.1 ∧
      (∀ m' ∈ pre, m.2 < m'.2) ∧ (∀ m' ∈ post, m.2 ≤ m'.2)) ∧
    categorize "zzz" none = hintCategory none ∧
    categorize_policy "zzz" none = "GENERAL" :=
  ⟨categorizers_resolution.1 "guide" none (by decide) (by decide),
   categorizers_resolution.2.2.1 "zzz" none (by decide) (by decide),
   categorizers_resolution.2.2.2.1 "zzz" none (by decide) (by decide)⟩

/-! ## C7 — trending scores -/

/-- `NewsFetcher.HIGH_AUTHORITY_SOURCES` (insertion order preserved). -/
def HIGH_AUTHORITY_SOURCES : List (String × ℚ) :=
  [("techcrunch", 3/2), ("the verge", 7/5), ("wired", 7/5), ("ars technica", 7/5),
   ("engadget", 13/10), ("venturebeat", 13/10), ("zdnet", 6/5), ("cnet", 6/5),
   ("forbes", 6/5), ("bloomberg", 13/10), ("reuters", 13/10), ("bbc", 6/5),
   ("new york times", 13/10), ("washington post", 13/10), ("hacker news", 6/5),
   ("dev.to", 11/10), ("medium", 1)]

/-- Contiguous-substring test on character lists (helper for `in`). -/
def containsSub (needle : List Char) : List Char → Bool
  | [] => needle.isEmpty
  | c :: rest => needle.isPrefixOf (c :: rest) || containsSub needle rest

/-- Python `needle in hay` on strings (substring containment). -/
def pyContains (needle hay : String) : Bool := containsSub needle.toList hay.toList

/-- The authority-multiplier lookup of `news_fetcher.calculate_trending_score`
(lines 262-268): first table entry whose name occurs in the lowered source,
else 1.0. -/
def authorityMultiplier (source : String) : ℚ :=
  match HIGH_AUTHORITY_SOURCES.find? (fun p => pyContains p.1 (pyLower source)) with
  | some p => p.2
  | none => 1

/-- `news_fetcher.NewsFetcher.calculate_trending_score`: absent `published`
scores 0; otherwise `max(0, 168 - hours_old) * authority_multiplier`, with
`hours_old = (now - published) in hours`.  Timestamps are rational epoch
seconds. -/
def news_calculate_trending_score (published : Option ℚ) (source : String)
    (now : ℚ) : ℚ :=
  match published with
  | none => 0
  | some pub =>
    let hours_old := (now - pub) / 3600
    let recency_score := max 0 (168 - hours_old)
    recency_score * authorityMultiplier source

/-- `youtube_fetcher.YouTubeFetcher.calculate_trending_score`: an
unparsable `published_at` (modelled `none`) defaults to `now - 7 days`;
`days_old` is `timedelta.days`, i.e. the floor of the elapsed seconds in
days; score = `(views + likes*10 + comments*5) * max(0.3, 1 - days_old*0.1)`. -/
def youtube_calculate_trending_score (published : Option ℚ) (now : ℚ)
    (views likes comments : ℕ) : ℚ :=
  let pub := match published with | some p => p | none => now - 7 * 86400
  let days_old : ℤ := ⌊(now - pub) / 86400⌋
  let recency_multiplier : ℚ := max (3/10) (1 - (days_old : ℚ) * (1/10))
  ((views : ℚ) + (likes : ℚ) * 10 + (comments : ℚ) * 5) * recency_multiplier

theorem authorityMultiplier_nonneg (source : String) :
    0 ≤ authorityMultiplier source := by
  unfold authorityMultiplier
  cases hf : HIGH_AUTHORITY_SOURCES.find?
      (fun p => pyContains p.1 (pyLower source)) with
  | none => norm_num
  | some p =>
    have hp : p ∈ HIGH_AUTHORITY_SOURCES := List.mem_of_find?_eq_some hf
    fin_cases hp <;> norm_num

/-- **C7**: shape of both trending scores.  News: 0 on absent publish
time; the `max(0, 168 - hours) * authority` formula; non-negative;
non-increasing as `now` advances with everything else fixed; exactly 0
once 168 hours have elapsed.  Video: the
`engagement * max(0.3, 1 - 0.1*days)` formula; non-negative; at least
`0.3 * engagement` (the recency multiplier never drops below 0.3);
non-increasing as `now` advances. -/
theorem trending_scores_shape :
    (∀ source now, news_calculate_trending_score none source now = 0) ∧
    (∀ pub source now, news_calculate_trending_score (some pub) source now =
      max 0 (168 - (now - pub) / 3600) * authorityMultiplier source) ∧
    (∀ published source now, 0 ≤ news_calculate_trending_score published source now) ∧
    (∀ pub source now1 now2, now1 ≤ now2 →
      news_calculate_trending_score (some pub) source now2 ≤
        news_calculate_trending_score (some pub) source now1) ∧
    (∀ (pub : ℚ) (source : String) (h now : ℚ), (168:ℚ) ≤ h → now = pub + 3600 * h →
      news_calculate_trending_score (some pub) source now = 0) ∧
    (∀ pub now views likes comments,
      youtube_calculate_trending_score (some pub) now views likes comments =
        ((views:ℚ) + (likes:ℚ) * 10 + (comments:ℚ) * 5) *
          max (3/10) (1 - ((⌊(now - pub) / 86400⌋ : ℤ) : ℚ) * (1/10))) ∧
    (∀ (published : Option ℚ) (now : ℚ) (views likes comments : ℕ),
      0 ≤ youtube_calculate_trending_score published now views likes comments) ∧
    (∀ (published : Option ℚ) (now : ℚ) (views likes comments : ℕ),
      (3/10) * ((views:ℚ) + (likes:ℚ) * 10 + (comments:ℚ) * 5) ≤
        youtube_calculate_trending_score published now views likes comments) ∧
    (∀ pub views likes comments now1 now2, now1 ≤ now2 →
      youtube_calculate_trending_score (some pub) now2 views likes comments ≤
        youtube_calculate_trending_score (some pub) now1 views likes comments) := by
  have hengage : ∀ (views likes comments : ℕ),
      (0:ℚ) ≤ (views:ℚ) + (likes:ℚ) * 10 + (comments:ℚ) * 5 := by
    intro views likes comments
    positivity
  refine ⟨fun _ _ => rfl, fun _ _ _ => rfl, ?_, ?_, ?_, fun _ _ _ _ _ => rfl, ?_, ?_, ?_⟩
  · intro published source now
    cases published with
    | none => exact le_refl 0
    | some pub =>
      exact mul_nonneg (le_max_left 0 _) (authorityMultiplier_nonneg source)
  · intro pub source now1 now2 h12
    show max 0 (168 - (now2 - pub) / 3600) * authorityMultiplier source ≤
      max 0 (168 - (now1 - pub) / 3600) * authorityMultiplier source
    apply mul_le_mul_of_nonneg_right _ (authorityMultiplier_nonneg source)
    apply max_le_max (le_refl 0)
    have hdiv : (now1 - pub) / 3600 ≤ (now2 - pub) / 3600 :=
      (div_le_div_right (by norm_num : (0:ℚ) < 3600)).mpr (by linarith)
    linarith
  · intro pub source h now hh hnow
    subst hnow
    show max 0 (168 - (pub + 3600 * h - pub) / 3600) * authorityMultiplier source = 0
    have hstep : pub + 3600 * h - pub = 3600 * h := by ring
    have hdiv : (pub + 3600 * h - pub) / 3600 = h := by
      rw [hstep]
      field_simp
    rw [hdiv]
    have hmax : max 0 (168 - h) = 0 := max_eq_left (by linarith)
    rw [hmax, zero_mul]
  · intro published now views likes comments
    refine mul_nonneg (hengage views likes comments) ?_
    have h1 : (0:ℚ) ≤ 3/10 := by norm_num
    exact le_trans h1 (le_max_left _ _)
  · intro published now views likes comments
    simp only [youtube_calculate_trending_score]
    exact le_trans
      (mul_le_mul_of_nonneg_right (le_max_left _ _) (hengage views likes comments))
      (le_of_eq (mul_comm _ _))
  · intro pub views likes comments now1 now2 h12
    apply mul_le_mul_of_nonneg_left _ (hengage views likes comments)
    apply max_le_max (le_refl _)
    have hd : (⌊(now1 - pub) / 86400⌋ : ℤ) ≤ ⌊(now2 - pub) / 86400⌋ := by
      apply Int.floor_le_floor
      exact (div_le_div_right (by norm_num : (0:ℚ) < 86400)).mpr (by linarith)
    have hdq : ((⌊(now1 - pub) / 86400⌋ : ℤ) : ℚ) ≤ ((⌊(now2 - pub) / 86400⌋ : ℤ) : ℚ) := by
      exact_mod_cast hd
    linarith

/-- Witness for C7 at concrete timestamps. -/
theorem trending_scores_shape_witness :
    (news_calculate_trending_score (some 0) "" 7200 ≤
      news_calculate_trending_score (some 0) "" 3600) ∧
    news_calculate_trending_score (some 0) "" (0 + 3600 * 200) = 0 ∧
    (youtube_calculate_trending_score (some 0) 7200 1 2 3 ≤
      youtube_calculate_trending_score (some 0) 3600 1 2 3) :=
  ⟨trending_scores_shape.2.2.2.1 0 "" 3600 7200 (by decide),
   trending_scores_shape.2.2.2.2.1 0 "" 200 (0 + 3600 * 200) (by decide) rfl,
   trending_scores_shape.2.2.2.2.2.2.2.2 0 1 2 3 3600 7200 (by decide)⟩

/-! ## C8 / C9 — the relevance filter

`relevance_filter.filter_by_relevance` modelled with the effectful parts as
explicit inputs: the environment (enable switch value, availability of the
`openai` import, API-key value) and the outcome of the guarded `try` block
(`error` for any exception anywhere in it, `ok` with the response text the
model returned).  The prompt construction (`content_type`, `min_score`,
`timeout`) only feeds the outbound request and never affects which items
are returned, so it needs no model. -/

/-- Digit-run parser for `int()`: digits with single underscores strictly
between digits (CPython grammar); `acc` is the value so far. -/
def digitsVal : List Char → ℕ → Option ℕ
  | [], acc => some acc
  | '_' :: c :: rest, acc =>
    if c.isDigit then digitsVal rest (acc * 10 + (c.toNat - 48)) else none
  | ['_'], _ => none
  | c :: rest, acc => if c.isDigit then digitsVal rest (acc * 10 + (c.toNat - 48)) else none

/-- Nonempty digit run starting with a digit. -/
def parseDigits : List Char → Option ℕ
  | [] => none
  | c :: rest => if c.isDigit then digitsVal rest (c.toNat - 48) else none

/-- Python `int(str)` (ASCII): surrounding whitespace, optional sign,
non-empty digit run; `none` models `ValueError`. -/
def pyIntL (s : List Char) : Option ℤ :=
  match pyStripList s with
  | '+' :: rest => (parseDigits rest).map (fun n => (n : ℤ))
  | '-' :: rest => (parseDigits rest).map (fun n => -(n : ℤ))
  | t => (parseDigits t).map (fun n => (n : ℤ))

/-- `str.split(",")`: split at every comma, keeping empty parts. -/
def splitCommaAux : List Char → List Char → List (List Char)
  | [], acc => [acc.reverse]
  | c :: rest, acc =>
    if c = ',' then acc.reverse :: splitCommaAux rest [] else splitCommaAux rest (c :: acc)

def splitComma (l : List Char) : List (List Char) := splitCommaAux l []

/-- The parsing loop of `filter_by_relevance` (lines 100-108): remove
spaces, split on commas, `int()` each part, keep `int(part) - 1` when it
is a valid 0-based index. -/
def parseIndices (result : List Char) (n : ℕ) : List ℕ :=
  (splitComma (result.filter (fun c => c ≠ ' '))).filterMap (fun part =>
    match pyIntL part with
    | some v => if 0 ≤ v - 1 ∧ v - 1 < (n : ℤ) then some (v - 1).toNat else none
    | none => none)

/-- The effectful environment of `filter_by_relevance`: value of the
`LLM_FILTER_ENABLED` variable, availability of the `openai` package, value
of `OPENAI_API_KEY`. -/
structure FilterEnv where
  llmFilterEnabled : Option String
  hasOpenAI : Bool
  apiKey : Option String
deriving DecidableEq, Repr, Inhabited

/-- `relevance_filter.is_filtering_enabled`:
`os.getenv("LLM_FILTER_ENABLED", "true").lower() == "true"`. -/
def is_filtering_enabled (v : Option String) : Bool := pyLower (v.getD "true") = "true"

/-- Python falsiness of an optional string (`if not api_key`). -/
def keyFalsy : Option String → Bool
  | none => true
  | some s => s = ""

/-- `relevance_filter.filter_by_relevance`.  Early returns: filtering
disabled or empty input; `openai` missing; API key falsy.  Then the `try`
block: any exception returns the input; the sentinel "NONE" (after strip
and upper) returns `[]`; a parse yielding no valid index returns the
input; otherwise the items at the parsed indices, in response order. -/
def filter_by_relevance (env : FilterEnv) (items : List Item)
    (outcome : Except Unit String) : List Item :=
  if ¬ is_filtering_enabled env.llmFilterEnabled ∨ items = [] then items
  else if ¬ env.hasOpenAI then items
  else if keyFalsy env.apiKey then items
  else
    match outcome with
    | .error _ => items
    | .ok raw =>
      let result := pyStripList raw.toList
      if result.map pyUpperChar = "NONE".toList then []
      else
        let idxs := parseIndices result items.length
        if idxs = [] then items
        else idxs.filterMap (fun i => items.get? i)

-- sanity checks against the source behaviour
def envOn : FilterEnv := ⟨some "true", true, some "k"⟩
def envOff : FilterEnv := ⟨some "false", true, some "k"⟩

example : pyIntL "12".toList = some 12 := by decide
example : pyIntL " -3 ".toList = some (-3) := by decide
example : pyIntL "1_2".toList = some 12 := by decide
example : pyIntL "x".toList = none := by decide
example : pyIntL "".toList = none := by decide
example : filter_by_relevance envOn [iAB, iBC] (.ok "2,1,1") = [iBC, iAB, iAB] := by decide
example : filter_by_relevance envOn [iAB, iBC] (.ok " NONE ") = [] := by decide
example : filter_by_relevance envOn [iAB, iBC] (.ok "7,zzz") = [iAB, iBC] := by decide
example : filter_by_relevance envOff [iAB, iBC] (.ok "1") = [iAB, iBC] := by decide

/-- Every parsed index is a valid 0-based position. -/
theorem parseIndices_lt (result : List Char) (n : ℕ) :
    ∀ i ∈ parseIndices result n, i < n := by
  intro i hi
  obtain ⟨part, _, hsome⟩ := List.mem_filterMap.mp hi
  cases hv : pyIntL part with
  | none =>
    simp only [hv] at hsome
    exact Option.noConfusion hsome
  | some v =>
    simp only [hv] at hsome
    by_cases hb : 0 ≤ v - 1 ∧ v - 1 < (n : ℤ)
    · rw [if_pos hb] at hsome
      cases hsome
      omega
    · rw [if_neg hb] at hsome
      cases hsome

/-- Selecting items at a non-empty list of valid indices yields a
non-empty list. -/
theorem filterMap_get_ne_nil (items : List Item) (idxs : List ℕ)
    (hne : idxs ≠ []) (hlt : ∀ i ∈ idxs, i < items.length) :
    idxs.filterMap (fun i => items.get? i) ≠ [] := by
  cases idxs with
  | nil => exact absurd rfl hne
  | cons i rest =>
    have hi : i < items.length := hlt i (by simp)
    have hg : items[i]? = some items[i] := List.getElem?_eq_getElem hi
    simp [List.filterMap_cons, hg]

/-- **C8**: safe degradation of the relevance filter.  The input comes
back unchanged when the enable switch is off, when the `openai` dependency
is missing, when the API key is falsy, when the call raises, and when a
non-sentinel response parses to no valid index; the empty list comes back
only on the "NONE" sentinel (given a non-empty input), and conversely the
sentinel produces the empty list on the live path. -/
theorem filter_by_relevance_degrades (env : FilterEnv) (items : List Item)
    (outcome : Except Unit String) :
    (¬ is_filtering_enabled env.llmFilterEnabled →
      filter_by_relevance env items outcome = items) ∧
    (¬ env.hasOpenAI → filter_by_relevance env items outcome = items) ∧
    (keyFalsy env.apiKey → filter_by_relevance env items outcome = items) ∧
    (∀ e, outcome = .error e → filter_by_relevance env items outcome = items) ∧
    (∀ raw, outcome = .ok raw →
      (pyStripList raw.toList).map pyUpperChar = "NONE".toList →
      is_filtering_enabled env.llmFilterEnabled → env.hasOpenAI →
      ¬ keyFalsy env.apiKey → items ≠ [] →
      filter_by_relevance env items outcome = []) ∧
    (items ≠ [] → filter_by_relevance env items outcome = [] →
      ∃ raw, outcome = .ok raw ∧
        (pyStripList raw.toList).map pyUpperChar = "NONE".toList) ∧
    (∀ raw, outcome = .ok raw →
      (pyStripList raw.toList).map pyUpperChar ≠ "NONE".toList →
      parseIndices (pyStripList raw.toList) items.length = [] →
      filter_by_relevance env items outcome = items) := by
  have hret1 : (¬ is_filtering_enabled env.llmFilterEnabled ∨ items = []) →
      filter_by_relevance env items outcome = items := by
    intro h
    simp only [filter_by_relevance]
    rw [if_pos h]
  have hret2 : ¬ env.hasOpenAI → filter_by_relevance env items outcome = items := by
    intro h
    by_cases h1 : (¬ is_filtering_enabled env.llmFilterEnabled ∨ items = [])
    · exact hret1 h1
    · simp only [filter_by_relevance]
      rw [if_neg h1, if_pos h]
  have hret3 : keyFalsy env.apiKey → filter_by_relevance env items outcome = items := by
    intro h
    by_cases h1 : (¬ is_filtering_enabled env.llmFilterEnabled ∨ items = [])
    · exact hret1 h1
    · by_cases h2 : ¬ env.hasOpenAI
      · exact hret2 h2
      · simp only [filter_by_relevance]
        rw [if_neg h1, if_neg h2, if_pos h]
  have hret4 : ∀ e, outcome = .error e →
      filter_by_relevance env items outcome = items := by
    intro e hok
    by_cases h1 : (¬ is_filtering_enabled env.llmFilterEnabled ∨ items = [])
    · exact hret1 h1
    · by_cases h2 : ¬ env.hasOpenAI
      · exact hret2 h2
      · by_cases h3 : keyFalsy env.apiKey
        · exact hret3 h3
        · subst hok
          simp only [filter_by_relevance]
          rw [if_neg h1, if_neg h2, if_neg h3]
  have hmain : ∀ raw, outcome = .ok raw →
      is_filtering_enabled env.llmFilterEnabled → env.hasOpenAI →
      ¬ keyFalsy env.apiKey → items ≠ [] →
      filter_by_relevance env items outcome =
        (if (pyStripList raw.toList).map pyUpperChar = "NONE".toList then []
         else if parseIndices (pyStripList raw.toList) items.length = [] then items
         else (parseIndices (pyStripList raw.toList) items.length).filterMap
           (fun i => items.get? i)) := by
    intro raw hok hE hO hK hne
    subst hok
    simp only [filter_by_relevance]
    rw [if_neg ?h1, if_neg ?h2, if_neg hK]
    case h1 =>
      intro h
      rcases h with h | h
      · exact h hE
      · exact hne h
    case h2 =>
      intro h
      exact h hO
  refine ⟨fun h => hret1 (Or.inl h), hret2, hret3, hret4, ?_, ?_, ?_⟩
  · intro raw hok hN hE hO hK hne
    rw [hmain raw hok hE hO hK hne, if_pos hN]
  · intro hne hempty
    by_cases hE : is_filtering_enabled env.llmFilterEnabled
    case neg => exact absurd (hret1 (Or.inl hE) ▸ hempty) hne
    by_cases hO : env.hasOpenAI
    case neg => exact absurd (hret2 hO ▸ hempty) hne
    by_cases hK : keyFalsy env.apiKey
    case pos => exact absurd (hret3 hK ▸ hempty) hne
    cases outcome with
    | error e => exact absurd ((hret4 e rfl) ▸ hempty) hne
    | ok raw =>
      have heq := hmain raw rfl hE hO hK hne
      by_cases hN : (pyStripList raw.toList).map pyUpperChar = "NONE".toList
      · exact ⟨raw, rfl, hN⟩
      · rw [heq, if_neg hN] at hempty
        by_cases hidx : parseIndices (pyStripList raw.toList) items.length = []
        · rw [if_pos hidx] at hempty
          exact absurd hempty hne
        · rw [if_neg hidx] at hempty
          exact absurd hempty
            (filterMap_get_ne_nil items _ hidx (parseIndices_lt _ _))
  · intro raw hok hN hidx
    by_cases hE : is_filtering_enabled env.llmFilterEnabled
    case neg => exact hret1 (Or.inl hE)
    by_cases hO : env.hasOpenAI
    case neg => exact hret2 hO
    by_cases hK : keyFalsy env.apiKey
    case pos => exact hret3 hK
    by_cases hne : items = []
    case pos => exact hret1 (Or.inr hne)
    rw [hmain raw hok hE hO hK hne, if_neg hN, if_pos hidx]

/-- Witness for C8: each degradation mode at a concrete input. -/
theorem filter_by_relevance_degrades_witness :
    filter_by_relevance envOff [iAB] (.ok "1") = [iAB] ∧
    filter_by_relevance envOn [iAB] (.error ()) = [iAB] ∧
    filter_by_relevance envOn [iAB] (.ok " none ") = [] ∧
    filter_by_relevance envOn [iAB] (.ok "x") = [iAB] :=
  ⟨(filter_by_relevance_degrades envOff [iAB] (.ok "1")).1 (by decide),
   (filter_by_relevance_degrades envOn [iAB] (.error ())).2.2.2.1 () rfl,
   (filter_by_relevance_degrades envOn [iAB] (.ok " none ")).2.2.2.2.1
     " none " rfl (by decide) (by decide) (by decide) (by decide) (by decide),
   (filter_by_relevance_degrades envOn [iAB] (.ok "x")).2.2.2.2.2.2
     "x" rfl (by decide) (by decide)⟩

/-- **C9 (counterexample)**: the output follows the order and multiplicity
of the indices in the service response, not the input: response "2,1,1" on
a two-item input returns the second item, then the first item twice — the
first item occurs more often than in the input and the relative input
order is not preserved. -/
theorem filter_response_order_counterexample :
    filter_by_relevance envOn [iAB, iBC] (.ok "2,1,1") = [iBC, iAB, iAB] ∧
    (filter_by_relevance envOn [iAB, iBC] (.ok "2,1,1")).count iAB = 2 ∧
    ([iAB, iBC] : List Item).count iAB = 1 := by decide

/-- **C9 (amended)**: every element of the returned list is an element of
the input list, with its attributes unchanged; the order and multiplicity
of the output follow the indices of the service response, so a response
can repeat or reorder items. -/
theorem filter_by_relevance_mem (env : FilterEnv) (items : List Item)
    (outcome : Except Unit String) :
    ∀ y ∈ filter_by_relevance env items outcome, y ∈ items := by
  intro y hy
  simp only [filter_by_relevance] at hy
  split at hy
  · exact hy
  · split at hy
    · exact hy
    · split at hy
      · exact hy
      · split at hy
        · exact hy
        · split at hy
          · cases hy
          · split at hy
            · exact hy
            · obtain ⟨i, _, hget⟩ := List.mem_filterMap.mp hy
              exact List.get?_mem hget

/-- Witness for the amended C9. -/
theorem filter_by_relevance_mem_witness : iBC ∈ ([iAB, iBC] : List Item) :=
  filter_by_relevance_mem envOn [iAB, iBC] (.ok "2,1,1") iBC (by decide)
